import Mathlib

/-!
Verification of the pysoar playbook execution engine
(`src/playbooks/engine.py`, `src/playbooks/actions.py`,
`src/services/playbook_engine.py` context seeding, and the
`PlaybookExecution` record of `src/models/playbook.py`).

The Python code is shallowly embedded: JSON-like runtime values become the
`Value` inductive type, Python dicts become association lists with Python
assignment/lookup semantics, raised exceptions become an explicit error type
threaded through `Except` / an error component, and the orchestration loop of
`PlaybookEngine.execute` becomes a fuel-indexed recursion whose fuel equals
the engine's own iteration bound `2 * len(steps)`.  Concrete action
implementations that call external services are abstracted behind an
`Oracle` (the uniform `execute(parameters, context) -> result` contract);
the `conditional` action, which is pure, is embedded directly from the
source of `ConditionalAction.execute`.
-/

namespace PySoar

/-- JSON-like Python runtime value (None, bool, int, str, list, dict).
Dict keys are strings, as everywhere in the engine (JSON-decoded data). -/
inductive Value where
  | vNone : Value
  | vBool : Bool → Value
  | vInt : Int → Value
  | vStr : String → Value
  | vList : List Value → Value
  | vDict : List (String × Value) → Value
deriving Inhabited

/-- A Python dict with string keys, as an insertion-ordered association list
with unique keys (the representation produced by JSON decoding). -/
abbrev Dict := List (String × Value)

/-- Python truthiness (`bool(v)`): None/False/0/empty are falsy. -/
def pyTruthy : Value → Bool
  | .vNone => false
  | .vBool b => b
  | .vInt n => n != 0
  | .vStr s => s != ""
  | .vList xs => !xs.isEmpty
  | .vDict es => !es.isEmpty

/-- Python hashability: lists and dicts are unhashable, so using one as a
dict key (e.g. `ACTION_REGISTRY.get(action_name)` with a JSON-list action
name) raises `TypeError`. -/
def pyHashable : Value → Bool
  | .vList _ => false
  | .vDict _ => false
  | _ => true

/-- Python `==` on scalar values.  The engine only ever compares step ids and
action names (strings); deep list/dict equality and numeric cross-type
equality (`True == 1`) are not exercised by any verified path and are
modelled as `false`. -/
def pyEq : Value → Value → Bool
  | .vNone, .vNone => true
  | .vBool a, .vBool b => a == b
  | .vInt a, .vInt b => a == b
  | .vStr a, .vStr b => a == b
  | _, _ => false

/-- Python `str(v)` as used in f-strings of the engine (`step_{id}_result`,
error messages).  Composite values only ever reach this through malformed
playbooks; their exact repr is abbreviated. -/
def pyStr : Value → String
  | .vNone => "None"
  | .vBool b => if b then "True" else "False"
  | .vInt n => toString n
  | .vStr s => s
  | .vList _ => "[...]"
  | .vDict _ => "\x7b...\x7d"

/-- `d.get(k)` returning `none` when the key is absent. -/
def dictGet (d : Dict) (k : String) : Option Value :=
  (d.find? (fun p => p.1 == k)).map (fun p => p.2)

/-- `d.get(k, default)`: the stored value if the key is present (even if the
stored value is `None`), otherwise the default. -/
def dictGetD (d : Dict) (k : String) (v : Value) : Value :=
  (dictGet d k).getD v

/-- `d[k] = v`: replace the value in place if the key exists (keeping its
position, like a Python dict), otherwise append the new binding. -/
def dictSet (d : Dict) (k : String) (v : Value) : Dict :=
  if d.any (fun p => p.1 == k) then
    d.map (fun p => if p.1 == k then (k, v) else p)
  else d ++ [(k, v)]

/-- `d.update(es)`: apply `d[k] = v` for every entry of `es` in order. -/
def dictUpdate (d : Dict) (es : Dict) : Dict :=
  es.foldl (fun acc p => dictSet acc p.1 p.2) d

/-- Exceptions that can cross function boundaries inside the engine:
`PlaybookError` (from `src/core/exceptions.py`, carrying playbook id,
message and the offending step) and `KeyError` from `step["..."]` item
access on a dict missing that key. -/
inductive PyErr where
  | playbookError : String → String → Option Value → PyErr
  | keyError : String → PyErr
  | typeError : String → PyErr
deriving Inhabited

/-- `str(e)`: a `PySOARException` stringifies to its message, a `KeyError`
to the quoted key. -/
def errStr : PyErr → String
  | .playbookError _ m _ => m
  | .keyError k => "'" ++ k ++ "'"
  | .typeError m => m

/-- `d[k]`: item access raising `KeyError` when the key is absent. -/
def pyGetItem (d : Dict) (k : String) : Except PyErr Value :=
  match dictGet d k with
  | some v => .ok v
  | none => .error (.keyError k)

/-- Step lookup table keyed by arbitrary values
(`step_lookup = {step["id"]: step for step in steps}`). -/
abbrev VDict := List (Value × Dict)

/-- Assignment into the value-keyed lookup (later entries overwrite). -/
def dictSetV (d : VDict) (k : Value) (v : Dict) : VDict :=
  if d.any (fun p => pyEq p.1 k) then
    d.map (fun p => if pyEq p.1 k then (k, v) else p)
  else d ++ [(k, v)]

/-- `step_lookup.get(current_step_id)`. -/
def lookupV (d : VDict) (k : Value) : Option Dict :=
  (d.find? (fun p => pyEq p.1 k)).map (fun p => p.2)

/-- Digits of a decimal string folded into a natural number. -/
def digitsToNat (l : List Char) : Nat :=
  l.foldl (fun a c => a * 10 + (c.toNat - 48)) 0

/-- Python `float(s)` on a string: surrounding spaces stripped, an optional
sign, then decimal digits with an optional fractional part (exponents /
inf / nan are not exercised by the engine's data and are rejected).
Returns `none` when the string cannot be parsed — the situation where
Python raises `ValueError`. -/
def parseFloat? (s : String) : Option Rat :=
  let cs := ((s.data.dropWhile (fun c => c = ' ')).reverse.dropWhile
    (fun c => c = ' ')).reverse
  let (sign, body) : Rat × List Char :=
    match cs with
    | '-' :: rest => (-1, rest)
    | '+' :: rest => (1, rest)
    | rest => (1, rest)
  match body.span (fun c => c != '.') with
  | (ip, []) =>
    if !ip.isEmpty && ip.all Char.isDigit then
      some (sign * (digitsToNat ip : Rat))
    else none
  | (ip, _dot :: fp) =>
    if (!ip.isEmpty || !fp.isEmpty) && ip.all Char.isDigit &&
        fp.all Char.isDigit then
      some (sign * ((digitsToNat ip : Rat) +
        (digitsToNat fp : Rat) / ((10 : Rat) ^ fp.length)))
    else none

/-- Python `float(v)`: numbers and bools convert, parsable strings parse,
everything else raises (`ValueError` / `TypeError`), modelled as `.error`
carrying the exception message. -/
def pyFloat : Value → Except String Rat
  | .vInt n => .ok (n : Rat)
  | .vBool b => .ok (if b then 1 else 0)
  | .vStr s =>
    match parseFloat? s with
    | some q => .ok q
    | none => .error ("could not convert string to float: '" ++ s ++ "'")
  | .vNone => .error "float() argument must be a string or a real number, not 'NoneType'"
  | _ => .error "float() argument must be a string or a real number"

/-- The keys of `ACTION_REGISTRY` in `src/playbooks/actions.py`. -/
def actionRegistryNames : List String :=
  ["enrich_ip", "enrich_domain", "enrich_hash", "send_notification",
   "update_alert", "create_incident", "run_script", "conditional", "wait"]

/-- `parameters.get(k)` where `parameters` is an arbitrary value: Python
raises `AttributeError` when it is not a dict. -/
def vdictGet (v : Value) (k : String) : Except String Value :=
  match v with
  | .vDict es => .ok (dictGetD es k .vNone)
  | _ => .error "'object' has no attribute 'get'"

/-- `parameters.get(k, default)` with the same raising behaviour. -/
def vdictGetD (v : Value) (k : String) (d : Value) : Except String Value :=
  match v with
  | .vDict es => .ok (dictGetD es k d)
  | _ => .error "'object' has no attribute 'get'"

/-- `context.get(field)` where `field` is an arbitrary value; the context
is string-keyed, so only a string field can hit an entry. -/
def ctxGetV (ctx : Dict) (field : Value) : Value :=
  match field with
  | .vStr s => dictGetD ctx s .vNone
  | _ => .vNone

/-- Python `in` on strings (`value in str(actual_value)`); a non-string
left operand raises `TypeError`. -/
def pyInStr (v : Value) (s : String) : Except String Bool :=
  match v with
  | .vStr sub => .ok ((s.splitOn sub).length > 1)
  | _ => .error "'in <string>' requires string as left operand"

/-- The `greater_than` / `less_than` branches of `ConditionalAction.execute`:
`float(actual_value) > float(value) if actual_value else False` — the
conversions run only when `actual_value` is truthy, and a conversion fault
escapes as an exception. -/
def numCompare (lt : Bool) (actual value : Value) : Except String Bool :=
  if pyTruthy actual then
    match pyFloat actual with
    | .error m => .error m
    | .ok a =>
      match pyFloat value with
      | .error m => .error m
      | .ok b => .ok (if lt then decide (a < b) else decide (a > b))
  else .ok false

/-- The operator dispatch chain of `ConditionalAction.execute`
(`result = False` followed by the `if operator == ... / elif ...` ladder);
an unmatched operator leaves the initial `False`. -/
def condEval (operator actual value : Value) : Except String Bool :=
  if pyEq operator (.vStr "equals") then .ok (pyEq actual value)
  else if pyEq operator (.vStr "not_equals") then .ok (!pyEq actual value)
  else if pyEq operator (.vStr "contains") then
    if pyTruthy actual then pyInStr value (pyStr actual) else .ok false
  else if pyEq operator (.vStr "greater_than") then numCompare false actual value
  else if pyEq operator (.vStr "less_than") then numCompare true actual value
  else if pyEq operator (.vStr "exists") then .ok (!pyEq actual .vNone)
  else if pyEq operator (.vStr "not_exists") then .ok (pyEq actual .vNone)
  else .ok false

/-- `ConditionalAction.execute` from `src/playbooks/actions.py`:
reads `field` / `operator` / `value` from the parameters, looks the field up
in the context and evaluates the operator.  An `.error` is an exception
escaping the action (e.g. `float()` on a non-numeric operand). -/
def conditionalExecute (params : Value) (ctx : Dict) : Except String Dict :=
  match vdictGet params "field" with
  | .error e => .error e
  | .ok field =>
    match vdictGetD params "operator" (.vStr "equals") with
    | .error e => .error e
    | .ok operator =>
      match vdictGet params "value" with
      | .error e => .error e
      | .ok value =>
        if !pyTruthy field then
          .ok [("success", .vBool false),
               ("error", .vStr "No field specified for condition")]
        else
          let actual := ctxGetV ctx field
          match condEval operator actual value with
          | .error m => .error m
          | .ok result =>
            .ok [("success", .vBool true), ("condition_met", .vBool result),
                 ("field", field), ("operator", operator),
                 ("expected", value), ("actual", actual)]

/-- Outcome of invoking an action through
`asyncio.wait_for(action.execute(parameters, self.context), timeout)`:
a returned result dict, a raised exception (with its message), or a
timeout. -/
inductive ActionOutcome where
  | ok : Dict → ActionOutcome
  | raised : String → ActionOutcome
  | timeout : ActionOutcome

/-- The behaviour of the registered action implementations, abstracted over
their external collaborators: given the action name, the (un-rendered)
parameters value and the current context, what the awaited call does. -/
abbrev Oracle := String → Value → Dict → ActionOutcome

/-- An oracle whose `conditional` behaviour is the real
`ConditionalAction.execute`; other actions (whose behaviour depends on
external collaborators) are left raising. -/
def condOracle : Oracle := fun name params ctx =>
  if name == "conditional" then
    match conditionalExecute params ctx with
    | .ok d => .ok d
    | .error m => .raised m
  else .raised "action behaviour not modelled"

/-- The `PlaybookExecution` record of `src/models/playbook.py`, restricted
to the columns the engine reads or writes.  `current_step` is a non-null
integer column with default 0; `error_step` is nullable with no default.
The JSON text columns `output_data` and `step_results` are modelled by the
structured payload that `json.dumps` would serialize. -/
structure Execution where
  id : String
  playbook_id : String
  status : String
  current_step : Int
  total_steps : Int
  started_at : Option String
  completed_at : Option String
  output_data : Option Dict
  step_results : Option (List Dict)
  error_message : Option String
  error_step : Option Int

/-- The `ExecutionStatus` enum values. -/
def statusPending : String := "pending"

/-- `ExecutionStatus.RUNNING.value`. -/
def statusRunning : String := "running"

/-- `ExecutionStatus.COMPLETED.value`. -/
def statusCompleted : String := "completed"

/-- `ExecutionStatus.FAILED.value`. -/
def statusFailed : String := "failed"

/-- The step-metadata tagging of a successful action result
(`PlaybookEngine._execute_step`, lines 170–173): `result["step_id"]`,
`result["step_name"]`, `result["action"]`, `result["executed_at"]` are
assigned into the action's own result dict. -/
def tagResult (now : String) (stepId stepName : Value) (actionName : String)
    (r : Dict) : Dict :=
  dictSet (dictSet (dictSet (dictSet r "step_id" stepId)
    "step_name" stepName) "action" (.vStr actionName)) "executed_at" (.vStr now)

/-- `PlaybookEngine._execute_step`: reads `step["id"]` and `step["action"]`
(item access — a missing key raises `KeyError` to the caller), resolves the
action in the registry (a hashable unknown action → failure result without
raising; an unhashable action name makes `ACTION_REGISTRY.get` raise
`TypeError` to the caller, since `get_action` runs before the `try`),
invokes it under the step timeout, and tags or synthesizes the result.
`now` stands for `datetime.now(timezone.utc).isoformat()`. -/
def executeStep (oracle : Oracle) (now : String) (ctx : Dict) (step : Dict) :
    Except PyErr Dict :=
  match pyGetItem step "id" with
  | .error e => .error e
  | .ok stepId =>
    let stepName := dictGetD step "name" stepId
    match pyGetItem step "action" with
    | .error e => .error e
    | .ok actionName =>
      let parameters := dictGetD step "parameters" (.vDict [])
      let timeout := dictGetD step "timeout_seconds" (.vInt 300)
      let unknown : Dict :=
        [("success", .vBool false),
         ("error", .vStr ("Unknown action: " ++ pyStr actionName)),
         ("step_id", stepId), ("step_name", stepName)]
      match actionName with
      | .vStr a =>
        if actionRegistryNames.contains a then
          match oracle a parameters ctx with
          | .ok r => .ok (tagResult now stepId stepName a r)
          | .timeout =>
            .ok [("success", .vBool false),
                 ("error", .vStr ("Step timed out after " ++ pyStr timeout ++ " seconds")),
                 ("step_id", stepId), ("step_name", stepName), ("action", .vStr a)]
          | .raised m =>
            .ok [("success", .vBool false), ("error", .vStr m),
                 ("step_id", stepId), ("step_name", stepName), ("action", .vStr a)]
        else .ok unknown
      | .vList _ => .error (.typeError "unhashable type: 'list'")
      | .vDict _ => .error (.typeError "unhashable type: 'dict'")
      | _ => .ok unknown

/-- The merge of a successful step result into the context
(`execute`, lines 70–72): every entry except `success` and `error` is
assigned into the context in the result's iteration order. -/
def mergeResult (ctx : Dict) (r : Dict) : Dict :=
  r.foldl (fun acc p =>
    if p.1 == "success" || p.1 == "error" then acc
    else dictSet acc p.1 p.2) ctx

/-- One outcome of the orchestration loop: final context, accumulated
step results, the (mutated) execution record, the final `step_index`, and
the exception that escaped the loop, if any. -/
abbrev LoopOut := Dict × List Dict × Execution × Nat × Option PyErr

/-- The `while` loop of `PlaybookEngine.execute` (lines 51–95).
`fuel` is the structural recursion gas; `execute` calls the loop with
`fuel = 2 * steps.length` and `idx = 0`, so `idx + fuel = 2 * nsteps` is
invariant and running out of fuel coincides exactly with the engine's own
bound check `step_index < len(steps) * 2` becoming false. -/
def loop (oracle : Oracle) (now : String) (pbId : String) (lookup : VDict)
    (nsteps : Nat) :
    Nat → Value → Dict → List Dict → Execution → Nat → LoopOut
  | 0, _, ctx, res, ex, idx => (ctx, res, ex, idx, none)
  | fuel + 1, csid, ctx, res, ex, idx =>
    if pyTruthy csid ∧ idx < 2 * nsteps then
      match lookupV lookup csid with
      | none =>
        (ctx, res, ex, idx,
         some (.playbookError pbId ("Step not found: " ++ pyStr csid) (some csid)))
      | some step =>
        let ex := { ex with current_step := (idx : Int) }
        let idx := idx + 1
        match executeStep oracle now ctx step with
        | .error e => (ctx, res, ex, idx, some e)
        | .ok result =>
          let res := res ++ [result]
          match pyGetItem step "id" with
          | .error e => (ctx, res, ex, idx, some e)
          | .ok sid =>
            let ctx := dictSet ctx ("step_" ++ pyStr sid ++ "_result") (.vDict result)
            let ctx :=
              if pyTruthy (dictGetD result "success" .vNone) then mergeResult ctx result
              else ctx
            if pyTruthy (dictGetD result "success" .vNone) then
              if pyEq (dictGetD step "action" .vNone) (.vStr "conditional") then
                if pyTruthy (dictGetD result "condition_met" .vNone) then
                  loop oracle now pbId lookup nsteps fuel
                    (dictGetD step "on_success" .vNone) ctx res ex idx
                else
                  loop oracle now pbId lookup nsteps fuel
                    (dictGetD step "on_failure" .vNone) ctx res ex idx
              else
                loop oracle now pbId lookup nsteps fuel
                  (dictGetD step "on_success" .vNone) ctx res ex idx
            else
              if pyTruthy (dictGetD step "continue_on_error" .vNone) then
                loop oracle now pbId lookup nsteps fuel
                  (dictGetD step "on_success" .vNone) ctx res ex idx
              else
                let nxt := dictGetD step "on_failure" .vNone
                if !pyTruthy nxt then
                  (ctx, res, ex, idx,
                   some (.playbookError pbId
                     ("Step failed: " ++ pyStr (dictGetD result "error" (.vStr "Unknown error")))
                     (some sid)))
                else
                  loop oracle now pbId lookup nsteps fuel nxt ctx res ex idx
    else (ctx, res, ex, idx, none)

/-- `step_lookup = {step["id"]: step for step in steps}` (line 47); a step
without an `"id"` key raises `KeyError` into the outer handler. -/
def buildLookup (acc : VDict) : List Dict → Except PyErr VDict
  | [] => .ok acc
  | s :: rest =>
    match pyGetItem s "id" with
    | .error e => .error e
    | .ok i => buildLookup (dictSetV acc i s) rest

/-- `current_step_id = steps[0]["id"] if steps else None` (line 48). -/
def headStepId : List Dict → Except PyErr Value
  | [] => .ok .vNone
  | s :: _ => pyGetItem s "id"

/-- The body of the `try:` block of `PlaybookEngine.execute`: build the
lookup, pick the entry point, run the loop. -/
def runTry (oracle : Oracle) (now : String) (execution : Execution)
    (steps : List Dict) (context : Dict) : LoopOut :=
  match buildLookup [] steps with
  | .error e => (context, [], execution, 0, some e)
  | .ok lookup =>
    match headStepId steps with
    | .error e => (context, [], execution, 0, some e)
    | .ok csid0 =>
      loop oracle now execution.playbook_id lookup steps.length
        (2 * steps.length) csid0 context [] execution 0

/-- `PlaybookEngine.execute` (`src/playbooks/engine.py`, lines 23–135):
seeds the context from `input_data or {}`, marks the record RUNNING, walks
the step graph, and finalizes under the two exception handlers — a
`PlaybookError` handler that also records `error_step`, and a bare
`Exception` handler that does not. -/
def execute (oracle : Oracle) (now : String) (execution : Execution)
    (steps : List Dict) (inputData : Option Dict) : Execution :=
  let context := inputData.getD []
  let execution := { execution with
    status := statusRunning
    started_at := some now
    total_steps := (steps.length : Int) }
  match runTry oracle now execution steps context with
  | (ctx, res, ex, _, none) =>
    { ex with
      status := statusCompleted
      completed_at := some now
      output_data := some ctx
      step_results := some res }
  | (_, res, ex, _, some (.playbookError pb m st)) =>
    { ex with
      status := statusFailed
      error_message := some (errStr (.playbookError pb m st))
      error_step := some ex.current_step
      completed_at := some now
      step_results := some res }
  | (_, res, ex, _, some (.keyError k)) =>
    { ex with
      status := statusFailed
      error_message := some (errStr (.keyError k))
      completed_at := some now
      step_results := some res }
  | (_, res, ex, _, some (.typeError m)) =>
    { ex with
      status := statusFailed
      error_message := some (errStr (.typeError m))
      completed_at := some now
      step_results := some res }

/-- The context seeding of the database-backed engine
(`src/services/playbook_engine.py`, lines 364–369): start from an empty
dict, update with the execution's input data when present, then update with
the playbook's variables when present.  `none` models a NULL / falsy JSON
column. -/
def buildContext (inputData : Option Dict) (pbVars : Option Dict) : Dict :=
  let context : Dict := []
  let context := match inputData with
    | some d => dictUpdate context d
    | none => context
  match pbVars with
  | some d => dictUpdate context d
  | none => context

/-- The ids of the steps of a playbook, as strings (malformed steps whose
`"id"` is missing or not a string contribute nothing). -/
def stepIdStrs (steps : List Dict) : List String :=
  steps.filterMap (fun s =>
    match dictGet s "id" with
    | some (.vStr i) => some i
    | _ => none)

/-- A step of an always-succeeding cyclic playbook: a non-empty string id
among the playbook's ids, a registered non-conditional action whose
invocation always returns a result with truthy `success`, and an
`on_success` edge pointing at one of the playbook's ids. -/
def goodStep (ids : List String) (oracle : Oracle) (s : Dict) : Prop :=
  (∃ i, dictGet s "id" = some (.vStr i) ∧ i ∈ ids ∧ i ≠ "") ∧
  (∃ a, dictGet s "action" = some (.vStr a) ∧
    actionRegistryNames.contains a = true ∧ a ≠ "conditional" ∧
    ∀ c, ∃ r, oracle a (dictGetD s "parameters" (.vDict [])) c = .ok r ∧
      pyTruthy (dictGetD r "success" .vNone) = true) ∧
  (∃ t, dictGet s "on_success" = some (.vStr t) ∧ t ∈ ids ∧ t ≠ "")

/-- A freshly created PENDING execution record with the column defaults of
`PlaybookExecution` (`current_step` 0, nullable fields NULL). -/
def pendingExec : Execution :=
  { id := "exec-1", playbook_id := "pb-1", status := statusPending,
    current_step := 0, total_steps := 0, started_at := none,
    completed_at := none, output_data := none, step_results := none,
    error_message := none, error_step := none }

/-- `pendingExec` after `execute` has marked a one-step run RUNNING at
time `"t0"`. -/
def runningExec1 : Execution :=
  { pendingExec with
    status := statusRunning
    started_at := some "t0"
    total_steps := 1 }

/-- An action oracle whose every invocation returns a bare success. -/
def alwaysOk : Oracle := fun _ _ _ => .ok [("success", .vBool true)]

/-- An action oracle whose every invocation raises `"boom"`. -/
def alwaysRaise : Oracle := fun _ _ _ => .raised "boom"

/-- Step `a` of a two-step cycle (`a.on_success = b`). -/
def stepA : Dict :=
  [("id", .vStr "a"), ("action", .vStr "wait"), ("on_success", .vStr "b")]

/-- Step `b` of a two-step cycle (`b.on_success = a`). -/
def stepB : Dict :=
  [("id", .vStr "b"), ("action", .vStr "wait"), ("on_success", .vStr "a")]

/-- First step of a two-step linear playbook. -/
def stepL1 : Dict :=
  [("id", .vStr "s1"), ("action", .vStr "wait"), ("on_success", .vStr "s2")]

/-- Terminal step of a two-step linear playbook. -/
def stepL2 : Dict := [("id", .vStr "s2"), ("action", .vStr "wait")]

/-- A single step with no failure handling. -/
def stepRaise : Dict := [("id", .vStr "s1"), ("action", .vStr "wait")]

/-- A single step with `continue_on_error` set and no successor. -/
def stepCOE : Dict :=
  [("id", .vStr "s1"), ("action", .vStr "wait"),
   ("continue_on_error", .vBool true)]

/-- A step dict missing the mandatory `"action"` key. -/
def stepNoAction : Dict := [("id", .vStr "s1")]

/-- A step naming an action absent from the registry. -/
def stepUnknownAction : Dict :=
  [("id", .vStr "s1"), ("action", .vStr "frobnicate")]

/-- A `conditional` step comparing context field `score` against the
non-numeric literal `"abc"` with `greater_than`. -/
def stepCondGTAbc : Dict :=
  [("id", .vStr "s1"), ("action", .vStr "conditional"),
   ("parameters", .vDict
     [("field", .vStr "score"), ("operator", .vStr "greater_than"),
      ("value", .vStr "abc")])]

/-! ### Association-list lemmas -/

theorem pyEq_vStr_right {v : Value} {t : String} :
    pyEq v (.vStr t) = true ↔ v = .vStr t := by
  cases v <;> simp [pyEq]

theorem pyEq_vStr_left {v : Value} {t : String} :
    pyEq (.vStr t) v = true ↔ v = .vStr t := by
  cases v <;> simp [pyEq]
  exact eq_comm

theorem find?_replace_self (d : Dict) (k : String) (v : Value)
    (h : d.any (fun p => p.1 == k) = true) :
    (d.map (fun p => if p.1 == k then (k, v) else p)).find?
      (fun p => p.1 == k) = some (k, v) := by
  induction d with
  | nil => simp at h
  | cons p rest ih =>
    by_cases hp : (p.1 == k) = true
    · simp only [List.map_cons, if_pos hp]
      exact List.find?_cons_of_pos _ (by simp)
    · simp only [List.map_cons, if_neg hp]
      rw [List.find?_cons_of_neg _ (by simpa using hp)]
      apply ih
      simpa [hp] using h

theorem find?_replace_ne (d : Dict) (k k' : String) (v : Value)
    (hne : k' ≠ k) :
    (d.map (fun p => if p.1 == k then (k, v) else p)).find?
      (fun p => p.1 == k') = d.find? (fun p => p.1 == k') := by
  induction d with
  | nil => simp
  | cons p rest ih =>
    by_cases hp : (p.1 == k) = true
    · simp only [List.map_cons, if_pos hp]
      rw [List.find?_cons_of_neg _ (by simpa using Ne.symm hne),
          List.find?_cons_of_neg _ (by simp only [beq_iff_eq] at hp ⊢; rw [hp]; exact Ne.symm hne)]
      exact ih
    · simp only [List.map_cons, if_neg hp]
      simp only [List.find?_cons]
      rw [ih]

theorem dictGet_dictSet_self (d : Dict) (k : String) (v : Value) :
    dictGet (dictSet d k v) k = some v := by
  unfold dictSet dictGet
  by_cases h : d.any (fun p => p.1 == k) = true
  · rw [if_pos h, find?_replace_self d k v h]
    rfl
  · rw [if_neg h, List.find?_append]
    have hn : d.find? (fun p => p.1 == k) = none := by
      rw [List.find?_eq_none]
      intro x hx hpx
      exact h (List.any_eq_true.mpr ⟨x, hx, hpx⟩)
    simp [hn]

theorem dictGet_dictSet_ne (d : Dict) (k k' : String) (v : Value)
    (h : k' ≠ k) : dictGet (dictSet d k v) k' = dictGet d k' := by
  unfold dictSet dictGet
  by_cases ha : d.any (fun p => p.1 == k) = true
  · rw [if_pos ha, find?_replace_ne d k k' v h]
  · rw [if_neg ha, List.find?_append]
    have hn : [(k, v)].find? (fun p => p.1 == k') = none := by
      simp [Ne.symm h]
    rw [hn]
    cases d.find? (fun p => p.1 == k') <;> simp

theorem dictSet_key_all {d : Dict} {k : String} {v : Value} :
    ∀ p ∈ dictSet d k v, p.1 = k → p.2 = v := by
  intro p hp hk
  unfold dictSet at hp
  by_cases ha : d.any (fun q => q.1 == k) = true
  · rw [if_pos ha] at hp
    rcases List.mem_map.mp hp with ⟨q, _, hq⟩
    by_cases hqk : q.1 = k
    · rw [if_pos (by simpa using hqk)] at hq
      rw [← hq]
    · rw [if_neg (by simpa using hqk)] at hq
      rw [← hq] at hk
      exact absurd hk hqk
  · rw [if_neg ha] at hp
    rcases List.mem_append.mp hp with h1 | h1
    · simp only [Bool.not_eq_true, List.any_eq_false] at ha
      have := ha p h1
      simp only [beq_eq_false_iff_ne, ne_eq] at this
      exact absurd hk this
    · simp only [List.mem_singleton] at h1
      rw [h1]

theorem dictSet_key_mem (d : Dict) (k : String) (v : Value) :
    ∃ p ∈ dictSet d k v, p.1 = k := by
  unfold dictSet
  by_cases ha : d.any (fun q => q.1 == k) = true
  · rw [if_pos ha]
    rcases List.any_eq_true.mp ha with ⟨q, hq, hqk⟩
    refine ⟨(k, v), List.mem_map.mpr ⟨q, hq, ?_⟩, rfl⟩
    rw [if_pos hqk]
  · rw [if_neg ha]
    exact ⟨(k, v), List.mem_append.mpr (Or.inr (List.mem_singleton.mpr rfl)), rfl⟩

theorem dictSet_preserve {d : Dict} {k k' : String} {v w : Value}
    (hne : k' ≠ k) (hall : ∀ p ∈ d, p.1 = k' → p.2 = w) :
    ∀ p ∈ dictSet d k v, p.1 = k' → p.2 = w := by
  intro p hp hk'
  unfold dictSet at hp
  by_cases ha : d.any (fun q => q.1 == k) = true
  · rw [if_pos ha] at hp
    rcases List.mem_map.mp hp with ⟨q, hq, hqe⟩
    by_cases hqk : q.1 = k
    · rw [if_pos (by simpa using hqk)] at hqe
      rw [← hqe] at hk'
      exact absurd hk'.symm hne
    · rw [if_neg (by simpa using hqk)] at hqe
      rw [← hqe] at hk' ⊢
      exact hall q hq hk'
  · rw [if_neg ha] at hp
    rcases List.mem_append.mp hp with h1 | h1
    · exact hall p h1 hk'
    · simp only [List.mem_singleton] at h1
      rw [h1] at hk'
      exact absurd hk'.symm hne

theorem dictSet_preserve_mem {d : Dict} {k k' : String} {v : Value}
    (hne : k' ≠ k) (hmem : ∃ p ∈ d, p.1 = k') :
    ∃ p ∈ dictSet d k v, p.1 = k' := by
  rcases hmem with ⟨p, hp, hpk⟩
  unfold dictSet
  by_cases ha : d.any (fun q => q.1 == k) = true
  · rw [if_pos ha]
    refine ⟨p, List.mem_map.mpr ⟨p, hp, ?_⟩, hpk⟩
    rw [if_neg]
    simp only [beq_iff_eq]
    rw [hpk]
    exact hne
  · rw [if_neg ha]
    exact ⟨p, List.mem_append.mpr (Or.inl hp), hpk⟩

/-! ### Result-merge and step-tagging lemmas -/

theorem mergeResult_get {r : Dict} {k : String} {v : Value} (ctx : Dict)
    (hall : ∀ p ∈ r, p.1 = k → p.2 = v)
    (hks : k ≠ "success") (hke : k ≠ "error") :
    dictGet (mergeResult ctx r) k =
      if r.any (fun p => p.1 == k) then some v else dictGet ctx k := by
  induction r generalizing ctx with
  | nil => simp [mergeResult]
  | cons p rest ih =>
    have hall' : ∀ q ∈ rest, q.1 = k → q.2 = v := by
      intro q hq
      exact hall q (List.mem_cons_of_mem _ hq)
    unfold mergeResult at ih ⊢
    simp only [List.foldl_cons]
    by_cases hpk : p.1 = k
    · have hv : p.2 = v := hall p (List.mem_cons_self _ _) hpk
      have hskip : ¬((p.1 == "success" || p.1 == "error") = true) := by
        simp [hpk, hks, hke]
      rw [if_neg hskip, ih _ hall']
      have hany : (p :: rest).any (fun q => q.1 == k) = true := by
        simp [hpk]
      rw [if_pos hany]
      by_cases hrest : rest.any (fun q => q.1 == k) = true
      · rw [if_pos hrest]
      · rw [if_neg hrest, hpk, hv, dictGet_dictSet_self]
    · have hstep : dictGet
          (if (p.1 == "success" || p.1 == "error") = true then ctx
           else dictSet ctx p.1 p.2) k = dictGet ctx k := by
        by_cases hsk : (p.1 == "success" || p.1 == "error") = true
        · rw [if_pos hsk]
        · rw [if_neg hsk]
          exact dictGet_dictSet_ne ctx p.1 k p.2 (fun h => hpk h.symm)
      have hany : (p :: rest).any (fun q => q.1 == k) =
          rest.any (fun q => q.1 == k) := by
        simp [hpk]
      rw [hany, ← hstep]
      exact ih _ hall'

theorem dictGet_tagResult_stepId (now : String) (sid sn : Value) (a : String)
    (r : Dict) : dictGet (tagResult now sid sn a r) "step_id" = some sid := by
  unfold tagResult
  rw [dictGet_dictSet_ne _ _ _ _ (by decide),
      dictGet_dictSet_ne _ _ _ _ (by decide),
      dictGet_dictSet_ne _ _ _ _ (by decide),
      dictGet_dictSet_self]

theorem dictGet_tagResult_stepName (now : String) (sid sn : Value)
    (a : String) (r : Dict) :
    dictGet (tagResult now sid sn a r) "step_name" = some sn := by
  unfold tagResult
  rw [dictGet_dictSet_ne _ _ _ _ (by decide),
      dictGet_dictSet_ne _ _ _ _ (by decide),
      dictGet_dictSet_self]

theorem dictGet_tagResult_action (now : String) (sid sn : Value) (a : String)
    (r : Dict) :
    dictGet (tagResult now sid sn a r) "action" = some (.vStr a) := by
  unfold tagResult
  rw [dictGet_dictSet_ne _ _ _ _ (by decide), dictGet_dictSet_self]

theorem dictGet_tagResult_executedAt (now : String) (sid sn : Value)
    (a : String) (r : Dict) :
    dictGet (tagResult now sid sn a r) "executed_at" = some (.vStr now) := by
  unfold tagResult
  rw [dictGet_dictSet_self]

theorem dictGet_tagResult_other (now : String) (sid sn : Value) (a : String)
    (r : Dict) (k : String) (h1 : k ≠ "step_id") (h2 : k ≠ "step_name")
    (h3 : k ≠ "action") (h4 : k ≠ "executed_at") :
    dictGet (tagResult now sid sn a r) k = dictGet r k := by
  unfold tagResult
  rw [dictGet_dictSet_ne _ _ _ _ h4, dictGet_dictSet_ne _ _ _ _ h3,
      dictGet_dictSet_ne _ _ _ _ h2, dictGet_dictSet_ne _ _ _ _ h1]

theorem tagResult_key_all (now : String) (sid sn : Value) (a : String)
    (r : Dict) :
    (∀ p ∈ tagResult now sid sn a r, p.1 = "step_id" → p.2 = sid) ∧
    (∀ p ∈ tagResult now sid sn a r, p.1 = "step_name" → p.2 = sn) ∧
    (∀ p ∈ tagResult now sid sn a r, p.1 = "action" → p.2 = .vStr a) ∧
    (∀ p ∈ tagResult now sid sn a r, p.1 = "executed_at" → p.2 = .vStr now) := by
  unfold tagResult
  refine ⟨?_, ?_, ?_, ?_⟩
  · exact dictSet_preserve (by decide)
      (dictSet_preserve (by decide)
        (dictSet_preserve (by decide) dictSet_key_all))
  · exact dictSet_preserve (by decide)
      (dictSet_preserve (by decide) dictSet_key_all)
  · exact dictSet_preserve (by decide) dictSet_key_all
  · exact dictSet_key_all

theorem tagResult_key_mem (now : String) (sid sn : Value) (a : String)
    (r : Dict) :
    (∃ p ∈ tagResult now sid sn a r, p.1 = "step_id") ∧
    (∃ p ∈ tagResult now sid sn a r, p.1 = "step_name") ∧
    (∃ p ∈ tagResult now sid sn a r, p.1 = "action") ∧
    (∃ p ∈ tagResult now sid sn a r, p.1 = "executed_at") := by
  unfold tagResult
  refine ⟨?_, ?_, ?_, ?_⟩
  · exact dictSet_preserve_mem (by decide)
      (dictSet_preserve_mem (by decide)
        (dictSet_preserve_mem (by decide) (dictSet_key_mem _ _ _)))
  · exact dictSet_preserve_mem (by decide)
      (dictSet_preserve_mem (by decide) (dictSet_key_mem _ _ _))
  · exact dictSet_preserve_mem (by decide) (dictSet_key_mem _ _ _)
  · exact dictSet_key_mem _ _ _

/-! ### Step-runner lemmas -/

theorem executeStep_ok_known {oracle : Oracle} {now : String} {ctx : Dict}
    {step : Dict} {sid : Value} {a : String} {r : Dict}
    (hid : dictGet step "id" = some sid)
    (ha : dictGet step "action" = some (.vStr a))
    (hreg : actionRegistryNames.contains a = true)
    (ho : oracle a (dictGetD step "parameters" (.vDict [])) ctx = .ok r) :
    executeStep oracle now ctx step =
      .ok (tagResult now sid (dictGetD step "name" sid) a r) := by
  unfold executeStep pyGetItem
  rw [hid, ha]
  simp only [hreg, if_true, ho]

theorem executeStep_raised {oracle : Oracle} {now : String} {ctx : Dict}
    {step : Dict} {sid : Value} {a : String} {m : String}
    (hid : dictGet step "id" = some sid)
    (ha : dictGet step "action" = some (.vStr a))
    (hreg : actionRegistryNames.contains a = true)
    (ho : oracle a (dictGetD step "parameters" (.vDict [])) ctx = .raised m) :
    executeStep oracle now ctx step =
      .ok [("success", .vBool false), ("error", .vStr m), ("step_id", sid),
           ("step_name", dictGetD step "name" sid), ("action", .vStr a)] := by
  unfold executeStep pyGetItem
  rw [hid, ha]
  simp only [hreg, if_true, ho]

theorem executeStep_timeout {oracle : Oracle} {now : String} {ctx : Dict}
    {step : Dict} {sid : Value} {a : String}
    (hid : dictGet step "id" = some sid)
    (ha : dictGet step "action" = some (.vStr a))
    (hreg : actionRegistryNames.contains a = true)
    (ho : oracle a (dictGetD step "parameters" (.vDict [])) ctx = .timeout) :
    executeStep oracle now ctx step =
      .ok [("success", .vBool false),
           ("error", .vStr ("Step timed out after " ++
             pyStr (dictGetD step "timeout_seconds" (.vInt 300)) ++ " seconds")),
           ("step_id", sid), ("step_name", dictGetD step "name" sid),
           ("action", .vStr a)] := by
  unfold executeStep pyGetItem
  rw [hid, ha]
  simp only [hreg, if_true, ho]

theorem executeStep_unknown {oracle : Oracle} {now : String} {ctx : Dict}
    {step : Dict} {sid : Value} {a : String}
    (hid : dictGet step "id" = some sid)
    (ha : dictGet step "action" = some (.vStr a))
    (hreg : actionRegistryNames.contains a = false) :
    executeStep oracle now ctx step =
      .ok [("success", .vBool false),
           ("error", .vStr ("Unknown action: " ++ pyStr (.vStr a))),
           ("step_id", sid), ("step_name", dictGetD step "name" sid)] := by
  unfold executeStep pyGetItem
  rw [hid, ha]
  simp only [hreg, if_false, Bool.false_eq_true]

theorem executeStep_isOk {oracle : Oracle} {now : String} {ctx : Dict}
    {step : Dict} {av : Value} (hid : (dictGet step "id").isSome)
    (ha : dictGet step "action" = some av) (hav : pyHashable av = true) :
    ∃ r, executeStep oracle now ctx step = .ok r := by
  rcases Option.isSome_iff_exists.mp hid with ⟨sid, hsid⟩
  unfold executeStep pyGetItem
  rw [hsid, ha]
  cases av with
  | vStr a =>
    by_cases hreg : actionRegistryNames.contains a = true
    · simp only [hreg, if_true]
      cases oracle a (dictGetD step "parameters" (.vDict [])) ctx <;>
        exact ⟨_, rfl⟩
    · simp only [hreg, if_false]
      exact ⟨_, rfl⟩
  | vNone => exact ⟨_, rfl⟩
  | vBool b => exact ⟨_, rfl⟩
  | vInt n => exact ⟨_, rfl⟩
  | vList xs => simp [pyHashable] at hav
  | vDict es => simp [pyHashable] at hav

theorem tagResult_success (now : String) (sid sn : Value) (a : String)
    (r : Dict) :
    dictGetD (tagResult now sid sn a r) "success" .vNone =
      dictGetD r "success" .vNone := by
  unfold dictGetD
  rw [dictGet_tagResult_other _ _ _ _ _ _ (by decide) (by decide) (by decide)
    (by decide)]

/-! ### Orchestration-loop lemmas -/

theorem loop_step_success {oracle : Oracle} {now pbId : String}
    {lookup : VDict} {nsteps fuel : Nat} {csid : Value} {ctx : Dict}
    {res : List Dict} {ex : Execution} {idx : Nat} {step : Dict}
    {sid : Value} {r : Dict}
    (hcs : pyTruthy csid = true) (hidx : idx < 2 * nsteps)
    (hlk : lookupV lookup csid = some step)
    (hid : dictGet step "id" = some sid)
    (hex : executeStep oracle now ctx step = .ok r)
    (hsucc : pyTruthy (dictGetD r "success" .vNone) = true)
    (hcond : pyEq (dictGetD step "action" .vNone) (.vStr "conditional") = false) :
    loop oracle now pbId lookup nsteps (fuel + 1) csid ctx res ex idx =
      loop oracle now pbId lookup nsteps fuel
        (dictGetD step "on_success" .vNone)
        (mergeResult (dictSet ctx ("step_" ++ pyStr sid ++ "_result") (.vDict r)) r)
        (res ++ [r]) { ex with current_step := (idx : Int) } (idx + 1) := by
  have hgi : pyGetItem step "id" = .ok sid := by
    unfold pyGetItem
    rw [hid]
  simp only [loop]
  rw [if_pos ⟨hcs, hidx⟩]
  simp only [hlk, hex, hgi, hsucc, if_true, hcond, Bool.false_eq_true, if_false]

theorem loop_step_continueOnError {oracle : Oracle} {now pbId : String}
    {lookup : VDict} {nsteps fuel : Nat} {csid : Value} {ctx : Dict}
    {res : List Dict} {ex : Execution} {idx : Nat} {step : Dict}
    {sid : Value} {r : Dict}
    (hcs : pyTruthy csid = true) (hidx : idx < 2 * nsteps)
    (hlk : lookupV lookup csid = some step)
    (hid : dictGet step "id" = some sid)
    (hex : executeStep oracle now ctx step = .ok r)
    (hsucc : pyTruthy (dictGetD r "success" .vNone) = false)
    (hcoe : pyTruthy (dictGetD step "continue_on_error" .vNone) = true) :
    loop oracle now pbId lookup nsteps (fuel + 1) csid ctx res ex idx =
      loop oracle now pbId lookup nsteps fuel
        (dictGetD step "on_success" .vNone)
        (dictSet ctx ("step_" ++ pyStr sid ++ "_result") (.vDict r))
        (res ++ [r]) { ex with current_step := (idx : Int) } (idx + 1) := by
  have hgi : pyGetItem step "id" = .ok sid := by
    unfold pyGetItem
    rw [hid]
  simp only [loop]
  rw [if_pos ⟨hcs, hidx⟩]
  simp only [hlk, hex, hgi, hsucc, Bool.false_eq_true, if_false, hcoe, if_true]

theorem loop_step_failNoEscape {oracle : Oracle} {now pbId : String}
    {lookup : VDict} {nsteps fuel : Nat} {csid : Value} {ctx : Dict}
    {res : List Dict} {ex : Execution} {idx : Nat} {step : Dict}
    {sid : Value} {r : Dict}
    (hcs : pyTruthy csid = true) (hidx : idx < 2 * nsteps)
    (hlk : lookupV lookup csid = some step)
    (hid : dictGet step "id" = some sid)
    (hex : executeStep oracle now ctx step = .ok r)
    (hsucc : pyTruthy (dictGetD r "success" .vNone) = false)
    (hcoe : pyTruthy (dictGetD step "continue_on_error" .vNone) = false)
    (hof : pyTruthy (dictGetD step "on_failure" .vNone) = false) :
    loop oracle now pbId lookup nsteps (fuel + 1) csid ctx res ex idx =
      (dictSet ctx ("step_" ++ pyStr sid ++ "_result") (.vDict r), res ++ [r],
       { ex with current_step := (idx : Int) }, idx + 1,
       some (.playbookError pbId
         ("Step failed: " ++ pyStr (dictGetD r "error" (.vStr "Unknown error")))
         (some sid))) := by
  have hgi : pyGetItem step "id" = .ok sid := by
    unfold pyGetItem
    rw [hid]
  simp only [loop]
  rw [if_pos ⟨hcs, hidx⟩]
  simp only [hlk, hex, hgi, hsucc, Bool.false_eq_true, if_false, hcoe, hof,
    Bool.not_false, if_true]

/-! ### Step-lookup-table lemmas -/

theorem pyEq_trans {a b c : Value} (h1 : pyEq a b = true)
    (h2 : pyEq a c = true) : pyEq b c = true := by
  cases a <;> cases b <;> cases c <;> simp_all [pyEq]

theorem findV_replace_cases {d : VDict} {k0 k : Value} {v : Dict}
    {e : Value × Dict}
    (h : (d.map (fun p => if pyEq p.1 k0 then (k0, v) else p)).find?
      (fun p => pyEq p.1 k) = some e) :
    e = (k0, v) ∨ d.find? (fun p => pyEq p.1 k) = some e := by
  induction d with
  | nil => simp at h
  | cons q rest ih =>
    rw [List.map_cons] at h
    by_cases hq : pyEq q.1 k0 = true
    · rw [if_pos hq] at h
      by_cases hk : pyEq k0 k = true
      · rw [List.find?_cons_of_pos (p := fun (q : Value × Dict) => pyEq q.1 k) _ hk] at h
        exact Or.inl (Option.some.inj h).symm
      · rw [List.find?_cons_of_neg (p := fun (q : Value × Dict) => pyEq q.1 k) _ hk] at h
        rcases ih h with h1 | h1
        · exact Or.inl h1
        · have hqk : ¬(pyEq q.1 k = true) := fun hh => hk (pyEq_trans hq hh)
          right
          rw [List.find?_cons_of_neg (p := fun (q : Value × Dict) => pyEq q.1 k) _ hqk]
          exact h1
    · rw [if_neg hq] at h
      by_cases hqk : pyEq q.1 k = true
      · rw [List.find?_cons_of_pos (p := fun (q : Value × Dict) => pyEq q.1 k) _ hqk] at h
        right
        rw [List.find?_cons_of_pos (p := fun (q : Value × Dict) => pyEq q.1 k) _ hqk]
        exact h
      · rw [List.find?_cons_of_neg (p := fun (q : Value × Dict) => pyEq q.1 k) _ hqk] at h
        rcases ih h with h1 | h1
        · exact Or.inl h1
        · right
          rw [List.find?_cons_of_neg (p := fun (q : Value × Dict) => pyEq q.1 k) _ hqk]
          exact h1

theorem lookupV_dictSetV_cases {d : VDict} {k0 k : Value} {v s : Dict}
    (h : lookupV (dictSetV d k0 v) k = some s) :
    s = v ∨ lookupV d k = some s := by
  unfold dictSetV at h
  by_cases ha : d.any (fun p => pyEq p.1 k0) = true
  · rw [if_pos ha] at h
    unfold lookupV at h
    rcases Option.map_eq_some'.mp h with ⟨e, he, hes⟩
    rcases findV_replace_cases he with h1 | h1
    · left
      rw [← hes, h1]
    · right
      unfold lookupV
      rw [h1, ← hes]
      rfl
  · rw [if_neg ha] at h
    unfold lookupV at h ⊢
    rw [List.find?_append] at h
    cases hd : d.find? (fun p => pyEq p.1 k) with
    | some e =>
      rw [hd] at h
      right
      simpa using h
    | none =>
      rw [hd] at h
      simp only [Option.none_or] at h
      rcases Option.map_eq_some'.mp h with ⟨e, he, hes⟩
      have := List.find?_some he
      have hmem := List.mem_of_find?_eq_some he
      simp only [List.mem_singleton] at hmem
      left
      rw [← hes, hmem]

theorem lookupV_isSome_any (d : VDict) (k : Value) :
    (lookupV d k).isSome = d.any (fun p => pyEq p.1 k) := by
  unfold lookupV
  rw [Option.isSome_map']
  cases hf : d.find? (fun p => pyEq p.1 k) with
  | some e =>
    have hmem := List.mem_of_find?_eq_some hf
    have hp := List.find?_some hf
    simp only [Option.isSome_some]
    exact (List.any_eq_true.mpr ⟨e, hmem, hp⟩).symm
  | none =>
    simp only [Option.isSome_none]
    rw [List.find?_eq_none] at hf
    symm
    rw [List.any_eq_false]
    intro x hx
    simpa using hf x hx

theorem lookupV_dictSetV_isSome_str {d : VDict} {k0 : Value} {v : Dict}
    {t : String}
    (h : pyEq k0 (.vStr t) = true ∨ (lookupV d (.vStr t)).isSome = true) :
    (lookupV (dictSetV d k0 v) (.vStr t)).isSome = true := by
  rw [lookupV_isSome_any] at h ⊢
  unfold dictSetV
  by_cases ha : d.any (fun p => pyEq p.1 k0) = true
  · rw [if_pos ha]
    rw [List.any_map]
    rcases h with hk0 | hany
    · rcases List.any_eq_true.mp ha with ⟨p, hp, hpk0⟩
      refine List.any_eq_true.mpr ⟨p, hp, ?_⟩
      simp only [Function.comp_apply]
      rw [if_pos hpk0]
      exact hk0
    · rcases List.any_eq_true.mp hany with ⟨p, hp, hpt⟩
      refine List.any_eq_true.mpr ⟨p, hp, ?_⟩
      simp only [Function.comp_apply]
      by_cases hpk0 : pyEq p.1 k0 = true
      · rw [if_pos hpk0]
        have h1 : p.1 = .vStr t := pyEq_vStr_right.mp hpt
        rw [h1] at hpk0
        have h2 : k0 = .vStr t := pyEq_vStr_left.mp hpk0
        rw [h2]
        simpa using pyEq_vStr_right.mpr rfl
      · rw [if_neg hpk0]
        exact hpt
  · rw [if_neg ha, List.any_append]
    rcases h with hk0 | hany
    · simp [hk0]
    · simp [hany]

theorem buildLookup_ok {steps : List Dict}
    (h : ∀ s ∈ steps, (dictGet s "id").isSome) :
    ∀ acc, ∃ L, buildLookup acc steps = .ok L := by
  induction steps with
  | nil => exact fun acc => ⟨acc, rfl⟩
  | cons s rest ih =>
    intro acc
    rcases Option.isSome_iff_exists.mp (h s (List.mem_cons_self _ _)) with ⟨i, hi⟩
    have hg : pyGetItem s "id" = .ok i := by
      unfold pyGetItem
      rw [hi]
    rcases ih (fun q hq => h q (List.mem_cons_of_mem _ hq)) (dictSetV acc i s)
      with ⟨L, hL⟩
    refine ⟨L, ?_⟩
    unfold buildLookup
    rw [hg]
    exact hL

theorem buildLookup_mem {steps : List Dict} :
    ∀ {acc L : VDict}, buildLookup acc steps = .ok L →
    ∀ {k : Value} {s : Dict}, lookupV L k = some s →
      s ∈ steps ∨ lookupV acc k = some s := by
  induction steps with
  | nil =>
    intro acc L h k s hl
    unfold buildLookup at h
    cases h
    exact Or.inr hl
  | cons q rest ih =>
    intro acc L h k s hl
    unfold buildLookup at h
    cases hg : pyGetItem q "id" with
    | error e =>
      rw [hg] at h
      cases h
    | ok i =>
      rw [hg] at h
      rcases ih h hl with h1 | h1
      · exact Or.inl (List.mem_cons_of_mem _ h1)
      · rcases lookupV_dictSetV_cases h1 with h2 | h2
        · exact Or.inl (by rw [h2]; exact List.mem_cons_self _ _)
        · exact Or.inr h2

theorem buildLookup_isSome {steps : List Dict} :
    ∀ {acc L : VDict}, buildLookup acc steps = .ok L →
    ∀ {t : String},
      (t ∈ stepIdStrs steps ∨ (lookupV acc (.vStr t)).isSome = true) →
      (lookupV L (.vStr t)).isSome = true := by
  induction steps with
  | nil =>
    intro acc L h t ht
    unfold buildLookup at h
    cases h
    rcases ht with ht | ht
    · simp [stepIdStrs] at ht
    · exact ht
  | cons q rest ih =>
    intro acc L h t ht
    unfold buildLookup at h
    cases hg : pyGetItem q "id" with
    | error e =>
      rw [hg] at h
      cases h
    | ok i =>
      rw [hg] at h
      have hgi : dictGet q "id" = some i := by
        unfold pyGetItem at hg
        cases hd : dictGet q "id" with
        | some v =>
          rw [hd] at hg
          cases hg
          rfl
        | none =>
          rw [hd] at hg
          cases hg
      rcases ht with ht | ht
      · unfold stepIdStrs at ht
        rcases List.mem_filterMap.mp ht with ⟨s0, hs0, hf⟩
        rcases List.mem_cons.mp hs0 with hs0 | hs0
        · subst hs0
          rw [hgi] at hf
          cases i with
          | vStr j =>
            simp only [Option.some.injEq] at hf
            subst hf
            refine ih h (Or.inr ?_)
            apply lookupV_dictSetV_isSome_str
            left
            simpa using pyEq_vStr_right.mpr rfl
          | vNone => exact absurd hf (by simp)
          | vBool b => exact absurd hf (by simp)
          | vInt n => exact absurd hf (by simp)
          | vList xs => exact absurd hf (by simp)
          | vDict es => exact absurd hf (by simp)
        · refine ih h (Or.inl ?_)
          unfold stepIdStrs
          exact List.mem_filterMap.mpr ⟨s0, hs0, hf⟩
      · refine ih h (Or.inr ?_)
        exact lookupV_dictSetV_isSome_str (Or.inr ht)

/-! ### Loop invariants -/

theorem loop_allgood {oracle : Oracle} {now pbId : String} {lookup : VDict}
    {steps : List Dict}
    (hmem : ∀ (k : Value) (s : Dict), lookupV lookup k = some s → s ∈ steps)
    (hsome : ∀ t, t ∈ stepIdStrs steps →
      (lookupV lookup (.vStr t)).isSome = true)
    (hgood : ∀ s ∈ steps, goodStep (stepIdStrs steps) oracle s) :
    ∀ (fuel : Nat) (t : String) (ctx : Dict) (res : List Dict)
      (ex : Execution) (idx : Nat),
      t ∈ stepIdStrs steps → t ≠ "" → idx + fuel = 2 * steps.length →
      ∃ ctx2 ex2 res2,
        loop oracle now pbId lookup steps.length fuel (.vStr t) ctx res ex
          idx = (ctx2, res2, ex2, 2 * steps.length, none) ∧
        res2.length = res.length + fuel := by
  intro fuel
  induction fuel with
  | zero =>
    intro t ctx res ex idx ht htne hsum
    refine ⟨ctx, ex, res, ?_, by simp⟩
    have hidx : idx = 2 * steps.length := by omega
    rw [hidx]
    rfl
  | succ fuel ih =>
    intro t ctx res ex idx ht htne hsum
    have hcs : pyTruthy (.vStr t) = true := by
      simp [pyTruthy, htne]
    have hidx : idx < 2 * steps.length := by omega
    rcases Option.isSome_iff_exists.mp (hsome t ht) with ⟨step, hstep⟩
    rcases hgood step (hmem _ _ hstep) with
      ⟨⟨i, hid, _, _⟩, ⟨a, ha, hreg, hanc, hor⟩, ⟨u, hos, huids, hune⟩⟩
    rcases hor ctx with ⟨r, horacle, hsucc⟩
    have hexec := @executeStep_ok_known oracle now ctx step (.vStr i) a r
      hid ha hreg horacle
    have hsucc2 : pyTruthy (dictGetD
        (tagResult now (.vStr i) (dictGetD step "name" (.vStr i)) a r)
        "success" .vNone) = true := by
      rw [tagResult_success]
      exact hsucc
    have hcond : pyEq (dictGetD step "action" .vNone)
        (.vStr "conditional") = false := by
      unfold dictGetD
      rw [ha]
      simpa [pyEq] using hanc
    rw [loop_step_success hcs hidx hstep hid hexec hsucc2 hcond]
    have hnext : dictGetD step "on_success" .vNone = .vStr u := by
      unfold dictGetD
      rw [hos]
      rfl
    rw [hnext]
    rcases ih u _ _ _ (idx + 1) huids hune (by omega) with
      ⟨ctx2, ex2, res2, hl, hlen⟩
    refine ⟨ctx2, ex2, res2, hl, ?_⟩
    rw [hlen]
    simp
    omega

theorem loop_count {oracle : Oracle} {now pbId : String} {lookup : VDict}
    {nsteps : Nat}
    (hwf : ∀ (k : Value) (s : Dict), lookupV lookup k = some s →
      (dictGet s "id").isSome = true ∧
      ∃ av, dictGet s "action" = some av ∧ pyHashable av = true) :
    ∀ (fuel : Nat) (csid : Value) (ctx : Dict) (res : List Dict)
      (ex : Execution) (idx : Nat),
      idx = res.length →
      (res ≠ [] → ex.current_step = (res.length : Int) - 1) →
      ∀ ctx2 res2 ex2 idx2 err2,
        loop oracle now pbId lookup nsteps fuel csid ctx res ex idx =
          (ctx2, res2, ex2, idx2, err2) →
        idx2 = res2.length ∧
        (res2 ≠ [] → ex2.current_step = (res2.length : Int) - 1) := by
  intro fuel
  induction fuel with
  | zero =>
    intro csid ctx res ex idx hidx hinv ctx2 res2 ex2 idx2 err2 heq
    simp only [loop, Prod.mk.injEq] at heq
    obtain ⟨-, h2, h3, h4, -⟩ := heq
    subst h2 h3 h4
    exact ⟨hidx, hinv⟩
  | succ fuel ih =>
    intro csid ctx res ex idx hidx hinv ctx2 res2 ex2 idx2 err2 heq
    simp only [loop] at heq
    by_cases hc : pyTruthy csid = true ∧ idx < 2 * nsteps
    · rw [if_pos hc] at heq
      cases hlk : lookupV lookup csid with
      | none =>
        rw [hlk] at heq
        dsimp only at heq
        simp only [Prod.mk.injEq] at heq
        obtain ⟨-, h2, h3, h4, -⟩ := heq
        subst h2 h3 h4
        exact ⟨hidx, hinv⟩
      | some step =>
        rw [hlk] at heq
        dsimp only at heq
        rcases hwf _ _ hlk with ⟨hids, av, hav, havh⟩
        rcases @executeStep_isOk oracle now ctx step av hids hav havh with
          ⟨r, hr⟩
        rw [hr] at heq
        dsimp only at heq
        rcases Option.isSome_iff_exists.mp hids with ⟨sid, hsid⟩
        have hgi : pyGetItem step "id" = .ok sid := by
          unfold pyGetItem
          rw [hsid]
        rw [hgi] at heq
        dsimp only at heq
        have hidx2 : idx + 1 = (res ++ [r]).length := by
          simp [hidx]
        have hinv2 : (res ++ [r]) ≠ [] →
            ({ ex with current_step := (idx : Int) }).current_step =
              (((res ++ [r]).length : Nat) : Int) - 1 := by
          intro _
          simp [hidx]
        split at heq
        · split at heq
          · split at heq
            · exact ih _ _ _ _ _ hidx2 hinv2 _ _ _ _ _ heq
            · exact ih _ _ _ _ _ hidx2 hinv2 _ _ _ _ _ heq
          · exact ih _ _ _ _ _ hidx2 hinv2 _ _ _ _ _ heq
        · split at heq
          · exact ih _ _ _ _ _ hidx2 hinv2 _ _ _ _ _ heq
          · split at heq
            · simp only [Prod.mk.injEq] at heq
              obtain ⟨-, h2, h3, h4, -⟩ := heq
              subst h2 h3 h4
              exact ⟨hidx2.symm ▸ rfl, fun _ => hinv2 (by simp)⟩
            · exact ih _ _ _ _ _ hidx2 hinv2 _ _ _ _ _ heq
    · rw [if_neg hc] at heq
      simp only [Prod.mk.injEq] at heq
      obtain ⟨-, h2, h3, h4, -⟩ := heq
      subst h2 h3 h4
      exact ⟨hidx, hinv⟩

/-! ### Finalization lemmas for `execute` -/

theorem execute_of_runTry_completed {oracle : Oracle} {now : String}
    {execution : Execution} {steps : List Dict} {inputData : Option Dict}
    {ctx : Dict} {res : List Dict} {ex : Execution} {idx : Nat}
    (h : runTry oracle now
      { execution with
        status := statusRunning
        started_at := some now
        total_steps := (steps.length : Int) } steps (inputData.getD []) =
      (ctx, res, ex, idx, none)) :
    execute oracle now execution steps inputData =
      { ex with
        status := statusCompleted
        completed_at := some now
        output_data := some ctx
        step_results := some res } := by
  unfold execute
  dsimp only
  rw [h]

theorem execute_of_runTry_playbookError {oracle : Oracle} {now : String}
    {execution : Execution} {steps : List Dict} {inputData : Option Dict}
    {ctx : Dict} {res : List Dict} {ex : Execution} {idx : Nat}
    {pb m : String} {st : Option Value}
    (h : runTry oracle now
      { execution with
        status := statusRunning
        started_at := some now
        total_steps := (steps.length : Int) } steps (inputData.getD []) =
      (ctx, res, ex, idx, some (.playbookError pb m st))) :
    execute oracle now execution steps inputData =
      { ex with
        status := statusFailed
        error_message := some m
        error_step := some ex.current_step
        completed_at := some now
        step_results := some res } := by
  unfold execute
  dsimp only
  rw [h]
  rfl

theorem execute_of_runTry_keyError {oracle : Oracle} {now : String}
    {execution : Execution} {steps : List Dict} {inputData : Option Dict}
    {ctx : Dict} {res : List Dict} {ex : Execution} {idx : Nat} {k : String}
    (h : runTry oracle now
      { execution with
        status := statusRunning
        started_at := some now
        total_steps := (steps.length : Int) } steps (inputData.getD []) =
      (ctx, res, ex, idx, some (.keyError k))) :
    execute oracle now execution steps inputData =
      { ex with
        status := statusFailed
        error_message := some ("'" ++ k ++ "'")
        completed_at := some now
        step_results := some res } := by
  unfold execute
  dsimp only
  rw [h]
  rfl

theorem execute_of_runTry_typeError {oracle : Oracle} {now : String}
    {execution : Execution} {steps : List Dict} {inputData : Option Dict}
    {ctx : Dict} {res : List Dict} {ex : Execution} {idx : Nat} {m : String}
    (h : runTry oracle now
      { execution with
        status := statusRunning
        started_at := some now
        total_steps := (steps.length : Int) } steps (inputData.getD []) =
      (ctx, res, ex, idx, some (.typeError m))) :
    execute oracle now execution steps inputData =
      { ex with
        status := statusFailed
        error_message := some m
        completed_at := some now
        step_results := some res } := by
  unfold execute
  dsimp only
  rw [h]
  rfl


theorem dictUpdate_get {es : Dict} {k : String} {v : Value} (d : Dict)
    (hall : ∀ p ∈ es, p.1 = k → p.2 = v) :
    dictGet (dictUpdate d es) k =
      if es.any (fun p => p.1 == k) then some v else dictGet d k := by
  induction es generalizing d with
  | nil => simp [dictUpdate]
  | cons p rest ih =>
    have hall2 : ∀ q ∈ rest, q.1 = k → q.2 = v := by
      intro q hq
      exact hall q (List.mem_cons_of_mem _ hq)
    unfold dictUpdate at ih ⊢
    simp only [List.foldl_cons]
    by_cases hpk : p.1 = k
    · have hv : p.2 = v := hall p (List.mem_cons_self _ _) hpk
      rw [ih _ hall2]
      have hany : (p :: rest).any (fun q => q.1 == k) = true := by
        simp [hpk]
      rw [if_pos hany]
      by_cases hrest : rest.any (fun q => q.1 == k) = true
      · rw [if_pos hrest]
      · rw [if_neg hrest, hpk, hv, dictGet_dictSet_self]
    · have hany : (p :: rest).any (fun q => q.1 == k) =
          rest.any (fun q => q.1 == k) := by
        simp [hpk]
      rw [hany, ih _ hall2,
        dictGet_dictSet_ne d p.1 k p.2 (fun h => hpk h.symm)]

theorem execute_terminal_cases (oracle : Oracle) (now : String)
    (execution : Execution) (steps : List Dict) (inputData : Option Dict) :
    (execute oracle now execution steps inputData).status = statusCompleted ∨
    ((execute oracle now execution steps inputData).status = statusFailed ∧
     (execute oracle now execution steps inputData).error_message.isSome
       = true) := by
  rcases hrt : runTry oracle now
      { execution with
        status := statusRunning
        started_at := some now
        total_steps := (steps.length : Int) } steps (inputData.getD []) with
    ⟨ctx, res, ex2, idx, err⟩
  cases err with
  | none =>
    rw [execute_of_runTry_completed hrt]
    exact Or.inl rfl
  | some e =>
    cases e with
    | playbookError pb m st =>
      rw [execute_of_runTry_playbookError hrt]
      exact Or.inr ⟨rfl, rfl⟩
    | keyError k =>
      rw [execute_of_runTry_keyError hrt]
      exact Or.inr ⟨rfl, rfl⟩
    | typeError m =>
      rw [execute_of_runTry_typeError hrt]
      exact Or.inr ⟨rfl, rfl⟩



/-! ### Claims -/

/-- Claim C1 counterexample: a playbook whose two steps form a cycle
(`a.on_success = b`, `b.on_success = a`) with every step succeeding runs
exactly `2 × totalSteps = 4` step attempts and then finishes with status
COMPLETED — not FAILED as the claim states: the safety bound silently
exits the loop into the normal completion path. -/
theorem claim_C1_counterexample :
    (execute alwaysOk "t0" pendingExec [stepA, stepB] none).status
      = statusCompleted ∧
    (execute alwaysOk "t0" pendingExec [stepA, stepB] none).status
      ≠ statusFailed ∧
    (execute alwaysOk "t0" pendingExec [stepA, stepB] none).step_results.map
      List.length = some 4 := by
  refine ⟨rfl, ?_, rfl⟩
  intro h
  exact absurd ((rfl :
    (execute alwaysOk "t0" pendingExec [stepA, stepB] none).status
      = statusCompleted).symm.trans h) (by decide)

/-- Claim C3 counterexample: a step whose action raises but which has
`continue_on_error` set does not make the run FAILED — the run advances to
its (absent) `on_success` successor and terminates COMPLETED, with the
raising step's failed result recorded. -/
theorem claim_C3_counterexample :
    (execute alwaysRaise "t0" pendingExec [stepCOE] none).status
      = statusCompleted ∧
    (execute alwaysRaise "t0" pendingExec [stepCOE] none).status
      ≠ statusFailed ∧
    (execute alwaysRaise "t0" pendingExec [stepCOE] none).step_results.map
      (List.map (fun r => dictGetD r "success" .vNone)) =
      some [.vBool false] := by
  refine ⟨rfl, ?_, rfl⟩
  intro h
  exact absurd ((rfl :
    (execute alwaysRaise "t0" pendingExec [stepCOE] none).status
      = statusCompleted).symm.trans h) (by decide)

/-- Claim C4 counterexample: a step dict without an `"action"` key makes
the lookup raise `KeyError`, caught by the bare `except Exception` handler,
which marks the run FAILED and sets `error_message` but never touches
`error_step` — so a FAILED execution can have `errorStep` unset. -/
theorem claim_C4_counterexample :
    (execute alwaysOk "t0" pendingExec [stepNoAction] none).status
      = statusFailed ∧
    (execute alwaysOk "t0" pendingExec [stepNoAction] none).error_message
      = some "'action'" ∧
    (execute alwaysOk "t0" pendingExec [stepNoAction] none).error_step
      = none :=
  ⟨rfl, rfl, rfl⟩

/-- Claim C4 (amended): every FAILED execution has `errorMessage`
populated; `errorStep` is additionally populated whenever the failure is a
playbook-level error (missing step id, or a failed step with no escape
edge) — but an unclassified internal fault leaves `errorStep` at its prior
value. -/
theorem claim_C4 (oracle : Oracle) (now : String) (execution : Execution)
    (steps : List Dict) (inputData : Option Dict) :
    ((execute oracle now execution steps inputData).status = statusFailed →
      (execute oracle now execution steps inputData).error_message.isSome
        = true) ∧
    (∀ (ctx : Dict) (res : List Dict) (ex : Execution) (idx : Nat)
       (pb m : String) (st : Option Value),
       runTry oracle now
         { execution with
           status := statusRunning
           started_at := some now
           total_steps := (steps.length : Int) } steps (inputData.getD []) =
         (ctx, res, ex, idx, some (.playbookError pb m st)) →
       (execute oracle now execution steps inputData).error_step =
         some ex.current_step) := by
  constructor
  · intro hf
    rcases execute_terminal_cases oracle now execution steps inputData with
      h | h
    · rw [h] at hf
      exact absurd hf (by decide)
    · exact h.2
  · intro ctx res ex idx pb m st hrt
    rw [execute_of_runTry_playbookError hrt]

/-- Claim C4 witness: a raising step with no escape edge yields a FAILED
run with both `errorMessage` and `errorStep` populated. -/
theorem claim_C4_witness :
    (execute alwaysRaise "t0" pendingExec [stepRaise] none).error_message.isSome
      = true ∧
    (execute alwaysRaise "t0" pendingExec [stepRaise] none).error_step
      = some 0 := by
  have h := claim_C4 alwaysRaise "t0" pendingExec [stepRaise] none
  exact ⟨h.1 rfl, h.2 _ _ _ _ _ _ _ rfl⟩

/-- Claim C2 counterexample: with input `{k: 1}` and playbook variables
`{k: 2}`, the seeded context holds `k = 2` — the playbook variable wins,
not the caller-supplied input as the claim states (the code updates the
context with the input first and layers the variables over it). -/
theorem claim_C2_counterexample :
    dictGet (buildContext (some [("k", .vInt 1)]) (some [("k", .vInt 2)]))
      "k" = some (.vInt 2) ∧
    (some (Value.vInt 2) : Option Value) ≠ some (.vInt 1) := by
  exact ⟨rfl, by simp⟩

/-- Claim C2 (amended): the initial execution context equals the execution
input loaded first with the playbook variables merged over it, so for any
key present in both mappings the playbook variable's value is the one
visible to the first step. -/
theorem claim_C2 {input pbVars : Dict} {k : String} {v : Value}
    (hmem : ∃ p ∈ pbVars, p.1 = k)
    (hall : ∀ p ∈ pbVars, p.1 = k → p.2 = v) :
    dictGet (buildContext (some input) (some pbVars)) k = some v := by
  unfold buildContext
  dsimp only
  rw [dictUpdate_get _ hall]
  rcases hmem with ⟨p, hp, hpk⟩
  rw [if_pos (List.any_eq_true.mpr ⟨p, hp, by simpa using hpk⟩)]

/-- Claim C2 witness: the amended seeding at a concrete colliding key. -/
theorem claim_C2_witness :
    dictGet (buildContext (some [("k", .vInt 1)]) (some [("k", .vInt 2)]))
      "k" = some (.vInt 2) := by
  refine claim_C2 ⟨("k", .vInt 2), List.mem_singleton.mpr rfl, rfl⟩ ?_
  intro p hp _
  rw [List.mem_singleton.mp hp]

/-- Claim C5 counterexample: a two-step playbook that completes both steps
finishes with `current_step = 1`, not 2 — the engine assigns
`current_step = step_index` before incrementing, so it is a 0-based index
of the last attempted step, not a 1-based count. -/
theorem claim_C5_counterexample :
    (execute alwaysOk "t0" pendingExec [stepL1, stepL2] none).status
      = statusCompleted ∧
    (execute alwaysOk "t0" pendingExec [stepL1, stepL2] none).step_results.map
      List.length = some 2 ∧
    (execute alwaysOk "t0" pendingExec [stepL1, stepL2] none).current_step
      = 1 ∧
    (execute alwaysOk "t0" pendingExec [stepL1, stepL2] none).current_step
      ≠ 2 := by
  have h1 : (execute alwaysOk "t0" pendingExec [stepL1, stepL2] none).current_step
      = 1 := rfl
  refine ⟨rfl, rfl, h1, ?_⟩
  rw [h1]
  decide

/-- Claim C10: calling `execute()` with an empty step list returns an
Execution with status COMPLETED, `totalSteps = 0`, `startedAt` and
`completedAt` both set, an empty `stepResults` list, and `outputData`
equal to the snapshot of the initial context (the input data). -/
theorem claim_C10 (oracle : Oracle) (now : String) (execution : Execution)
    (inputData : Option Dict) :
    execute oracle now execution [] inputData =
      { execution with
        status := statusCompleted
        total_steps := 0
        started_at := some now
        completed_at := some now
        output_data := some (inputData.getD [])
        step_results := some [] } := rfl


/-- Claim C8 counterexample: on an unknown action the step runner's result
carries only `step_id` and `step_name` — the `action` and `executed_at`
keys the claim promises are absent (`executed_at` is also absent on
timeout and raised-exception results). -/
theorem claim_C8_counterexample :
    (executeStep alwaysOk "t0" [] stepUnknownAction).toOption.map
      (fun r => (dictGet r "step_id", dictGet r "action",
                 dictGet r "executed_at")) =
      some (some (.vStr "s1"), none, none) := rfl

/-- Claim C8 (amended): the step runner always returns a result (internal
failures included) tagged with `step_id` and `step_name`; on a successful
action invocation it additionally carries `action` and `executed_at`; on a
raised exception or timeout it carries `action` but no `executed_at`, with
`success = false` and an `error`; on an unknown action it carries neither
`action` nor `executed_at`, with `success = false`. -/
theorem claim_C8 {oracle : Oracle} {now : String} {ctx : Dict} {step : Dict}
    {sid : Value} {a : String}
    (hid : dictGet step "id" = some sid)
    (ha : dictGet step "action" = some (.vStr a)) :
    (∀ r, actionRegistryNames.contains a = true →
      oracle a (dictGetD step "parameters" (.vDict [])) ctx = .ok r →
      ∃ r2, executeStep oracle now ctx step = .ok r2 ∧
        dictGet r2 "step_id" = some sid ∧
        dictGet r2 "step_name" = some (dictGetD step "name" sid) ∧
        dictGet r2 "action" = some (.vStr a) ∧
        dictGet r2 "executed_at" = some (.vStr now)) ∧
    (∀ m, actionRegistryNames.contains a = true →
      oracle a (dictGetD step "parameters" (.vDict [])) ctx = .raised m →
      ∃ r2, executeStep oracle now ctx step = .ok r2 ∧
        dictGet r2 "step_id" = some sid ∧
        dictGet r2 "step_name" = some (dictGetD step "name" sid) ∧
        dictGet r2 "action" = some (.vStr a) ∧
        dictGet r2 "executed_at" = none ∧
        dictGetD r2 "success" .vNone = .vBool false ∧
        dictGet r2 "error" = some (.vStr m)) ∧
    (actionRegistryNames.contains a = true →
      oracle a (dictGetD step "parameters" (.vDict [])) ctx = .timeout →
      ∃ r2, executeStep oracle now ctx step = .ok r2 ∧
        dictGet r2 "step_id" = some sid ∧
        dictGet r2 "step_name" = some (dictGetD step "name" sid) ∧
        dictGet r2 "action" = some (.vStr a) ∧
        dictGet r2 "executed_at" = none ∧
        dictGetD r2 "success" .vNone = .vBool false) ∧
    (actionRegistryNames.contains a = false →
      ∃ r2, executeStep oracle now ctx step = .ok r2 ∧
        dictGet r2 "step_id" = some sid ∧
        dictGet r2 "step_name" = some (dictGetD step "name" sid) ∧
        dictGet r2 "action" = none ∧
        dictGet r2 "executed_at" = none ∧
        dictGetD r2 "success" .vNone = .vBool false) := by
  refine ⟨?_, ?_, ?_, ?_⟩
  · intro r hreg ho
    refine ⟨_, executeStep_ok_known hid ha hreg ho, ?_, ?_, ?_, ?_⟩
    · exact dictGet_tagResult_stepId _ _ _ _ _
    · exact dictGet_tagResult_stepName _ _ _ _ _
    · exact dictGet_tagResult_action _ _ _ _ _
    · exact dictGet_tagResult_executedAt _ _ _ _ _
  · intro m hreg ho
    exact ⟨_, executeStep_raised hid ha hreg ho, rfl, rfl, rfl, rfl, rfl, rfl⟩
  · intro hreg ho
    exact ⟨_, executeStep_timeout hid ha hreg ho, rfl, rfl, rfl, rfl, rfl⟩
  · intro hreg
    exact ⟨_, executeStep_unknown hid ha hreg, rfl, rfl, rfl, rfl, rfl⟩

/-- Claim C8 witness: the unknown-action and raised-exception cases at
concrete steps. -/
theorem claim_C8_witness :
    (∃ r2, executeStep alwaysOk "t0" [] stepUnknownAction = .ok r2 ∧
      dictGet r2 "step_id" = some (.vStr "s1") ∧
      dictGet r2 "step_name" = some (dictGetD stepUnknownAction "name" (.vStr "s1")) ∧
      dictGet r2 "action" = none ∧
      dictGet r2 "executed_at" = none ∧
      dictGetD r2 "success" .vNone = .vBool false) ∧
    (∃ r2, executeStep alwaysRaise "t0" [] stepRaise = .ok r2 ∧
      dictGet r2 "step_id" = some (.vStr "s1") ∧
      dictGet r2 "step_name" = some (dictGetD stepRaise "name" (.vStr "s1")) ∧
      dictGet r2 "action" = some (.vStr "wait") ∧
      dictGet r2 "executed_at" = none ∧
      dictGetD r2 "success" .vNone = .vBool false ∧
      dictGet r2 "error" = some (.vStr "boom")) := by
  constructor
  · exact (@claim_C8 alwaysOk "t0" [] stepUnknownAction (.vStr "s1")
      "frobnicate" rfl rfl).2.2.2 rfl
  · exact (@claim_C8 alwaysRaise "t0" [] stepRaise (.vStr "s1") "wait"
      rfl rfl).2.1 "boom" rfl rfl

/-- Claim C6 counterexample: for `greater_than` with a falsy context value
(here: the field is absent, so the value is `None`) and a non-numeric
expected value `"abc"` — both operands unparsable as numbers — the
conditional returns `success = true` with `condition_met = false`: exactly
the silent false the claim rules out.  The truthiness guard
`... if actual_value else False` short-circuits before any parsing. -/
theorem claim_C6_counterexample :
    (executeStep condOracle "t0" [] stepCondGTAbc).toOption.map
      (fun r => (dictGet r "success", dictGet r "condition_met")) =
      some (some (.vBool true), some (.vBool false)) := rfl

/-- Claim C6 (amended): for `greater_than`/`less_than`, whenever the
context value of the named field is truthy and either operand fails to
parse as a number, the `float()` conversion raises, the step runner
converts the fault, and the observable step result has `success = false`
with an `error`; only a falsy context value short-circuits to the silent
`success = true, condition_met = false`. -/
theorem claim_C6 {params : Dict} {ctx : Dict} {sid : Value} {now : String}
    {opname : String}
    (hop : opname = "greater_than" ∨ opname = "less_than")
    (hf : pyTruthy (dictGetD params "field" .vNone) = true)
    (hopv : dictGetD params "operator" (.vStr "equals") = .vStr opname)
    (hactual : pyTruthy (ctxGetV ctx (dictGetD params "field" .vNone)) = true)
    (herr : (∃ m, pyFloat (ctxGetV ctx (dictGetD params "field" .vNone))
              = .error m) ∨
            (∃ m, pyFloat (dictGetD params "value" .vNone) = .error m)) :
    ∃ r, executeStep condOracle now ctx
        [("id", sid), ("action", .vStr "conditional"),
         ("parameters", .vDict params)] = .ok r ∧
      dictGetD r "success" .vNone = .vBool false ∧
      ∃ m, dictGet r "error" = some (.vStr m) := by
  have hnc : ∀ lt : Bool, ∃ m, numCompare lt
      (ctxGetV ctx (dictGetD params "field" .vNone))
      (dictGetD params "value" .vNone) = .error m := by
    intro lt
    unfold numCompare
    rw [if_pos hactual]
    rcases herr with ⟨m, hm⟩ | ⟨m, hm⟩
    · rw [hm]
      exact ⟨m, rfl⟩
    · cases hpa : pyFloat (ctxGetV ctx (dictGetD params "field" .vNone)) with
      | error m2 => exact ⟨m2, rfl⟩
      | ok q =>
        rw [hm]
        exact ⟨m, rfl⟩
  have hce : ∃ m, condEval (.vStr opname)
      (ctxGetV ctx (dictGetD params "field" .vNone))
      (dictGetD params "value" .vNone) = .error m := by
    rcases hop with h | h <;> subst h
    · have hred : condEval (.vStr "greater_than")
          (ctxGetV ctx (dictGetD params "field" .vNone))
          (dictGetD params "value" .vNone) =
          numCompare false (ctxGetV ctx (dictGetD params "field" .vNone))
            (dictGetD params "value" .vNone) := by
        simp [condEval, pyEq]
      rw [hred]
      exact hnc false
    · have hred : condEval (.vStr "less_than")
          (ctxGetV ctx (dictGetD params "field" .vNone))
          (dictGetD params "value" .vNone) =
          numCompare true (ctxGetV ctx (dictGetD params "field" .vNone))
            (dictGetD params "value" .vNone) := by
        simp [condEval, pyEq]
      rw [hred]
      exact hnc true
  have hcx : ∃ m, conditionalExecute (.vDict params) ctx = .error m := by
    rcases hce with ⟨m, hm⟩
    refine ⟨m, ?_⟩
    unfold conditionalExecute vdictGet vdictGetD
    dsimp only
    rw [hopv, hf]
    simp only [Bool.not_true, Bool.false_eq_true, if_false]
    rw [hm]
  rcases hcx with ⟨m, hm⟩
  have ho : condOracle "conditional" (.vDict params) ctx = .raised m := by
    unfold condOracle
    rw [hm]
    rfl
  refine ⟨_, @executeStep_raised condOracle now ctx
    [("id", sid), ("action", .vStr "conditional"),
     ("parameters", .vDict params)] sid "conditional" m rfl rfl rfl ho,
    rfl, ⟨m, rfl⟩⟩

/-- Claim C6 witness: truthy non-numeric context value `"xyz"` against
`greater_than "abc"` yields a failed step result. -/
theorem claim_C6_witness :
    ∃ r, executeStep condOracle "t0" [("score", .vStr "xyz")] stepCondGTAbc
        = .ok r ∧
      dictGetD r "success" .vNone = .vBool false ∧
      ∃ m, dictGet r "error" = some (.vStr m) := by
  exact claim_C6 (Or.inl rfl) rfl rfl rfl
    (Or.inl ⟨"could not convert string to float: 'xyz'", rfl⟩)


/-- Claim C5 (amended): throughout every run over well-formed steps — each
carrying an `"id"` and a hashable `"action"` value (an unhashable action
name makes `ACTION_REGISTRY.get` raise `TypeError` before the step's
result is recorded, leaving the count and the result list out of step) —
`Execution.currentStep` is the 0-based index of the most recently
attempted step: after the orchestrator has attempted k ≥ 1 steps the
record holds `currentStep = k - 1`, so a two-step playbook that completes
both steps finishes with `currentStep = 1`. -/
theorem claim_C5 {oracle : Oracle} {now : String} {execution : Execution}
    {steps : List Dict} {inputData : Option Dict}
    (hwf : ∀ s ∈ steps, (dictGet s "id").isSome = true ∧
      ∃ av, dictGet s "action" = some av ∧ pyHashable av = true) :
    ∀ rs, (execute oracle now execution steps inputData).step_results
        = some rs → rs ≠ [] →
      (execute oracle now execution steps inputData).current_step =
        (rs.length : Int) - 1 := by
  intro rs hrs hne
  rcases hrt : runTry oracle now
      { execution with
        status := statusRunning
        started_at := some now
        total_steps := (steps.length : Int) } steps (inputData.getD []) with
    ⟨ctx2, res2, ex2, idx2, err2⟩
  have hresinv : res2 ≠ [] → ex2.current_step = (res2.length : Int) - 1 := by
    unfold runTry at hrt
    cases hL : buildLookup [] steps with
    | error e =>
      rw [hL] at hrt
      dsimp only at hrt
      simp only [Prod.mk.injEq] at hrt
      obtain ⟨-, h2, -, -, -⟩ := hrt
      subst h2
      intro h
      exact absurd rfl h
    | ok L =>
      rw [hL] at hrt
      dsimp only at hrt
      cases hH : headStepId steps with
      | error e =>
        rw [hH] at hrt
        dsimp only at hrt
        simp only [Prod.mk.injEq] at hrt
        obtain ⟨-, h2, -, -, -⟩ := hrt
        subst h2
        intro h
        exact absurd rfl h
      | ok csid0 =>
        rw [hH] at hrt
        dsimp only at hrt
        have hwfL : ∀ (k : Value) (s : Dict), lookupV L k = some s →
            (dictGet s "id").isSome = true ∧
            ∃ av, dictGet s "action" = some av ∧ pyHashable av = true := by
          intro k s h
          rcases buildLookup_mem hL h with hm | hm
          · exact hwf s hm
          · simp [lookupV] at hm
        exact (loop_count hwfL _ _ _ _ _ _ rfl
          (fun h => absurd rfl h) _ _ _ _ _ hrt).2
  cases err2 with
  | none =>
    rw [execute_of_runTry_completed hrt] at hrs ⊢
    have : res2 = rs := by
      simpa using hrs
    subst this
    exact hresinv hne
  | some e =>
    cases e with
    | playbookError pb m st =>
      rw [execute_of_runTry_playbookError hrt] at hrs ⊢
      have : res2 = rs := by
        simpa using hrs
      subst this
      exact hresinv hne
    | keyError k =>
      rw [execute_of_runTry_keyError hrt] at hrs ⊢
      have : res2 = rs := by
        simpa using hrs
      subst this
      exact hresinv hne
    | typeError m =>
      rw [execute_of_runTry_typeError hrt] at hrs ⊢
      have : res2 = rs := by
        simpa using hrs
      subst this
      exact hresinv hne

/-- Claim C5 witness: the two-step linear run attempts both steps and ends
with `currentStep = 2 - 1 = 1`. -/
theorem claim_C5_witness :
    (execute alwaysOk "t0" pendingExec [stepL1, stepL2] none).current_step
      = 1 := by
  have hwf : ∀ s ∈ [stepL1, stepL2], (dictGet s "id").isSome = true ∧
      ∃ av, dictGet s "action" = some av ∧ pyHashable av = true := by
    intro s hs
    rcases List.mem_cons.mp hs with h | h
    · subst h
      exact ⟨rfl, .vStr "wait", rfl, rfl⟩
    · rcases List.mem_cons.mp h with h2 | h2
      · subst h2
        exact ⟨rfl, .vStr "wait", rfl, rfl⟩
      · simp at h2
  obtain ⟨rs, hrs⟩ : ∃ rs,
      (execute alwaysOk "t0" pendingExec [stepL1, stepL2] none).step_results
        = some rs := ⟨_, rfl⟩
  have hlen : rs.length = 2 := by
    have h2 : (execute alwaysOk "t0" pendingExec
        [stepL1, stepL2] none).step_results.map List.length = some 2 := rfl
    rw [hrs] at h2
    simpa using h2
  have := claim_C5 hwf rs hrs (by
    intro h
    rw [h] at hlen
    simp at hlen)
  rw [this, hlen]
  decide


/-- Claim C1 (amended): for every non-empty playbook whose step graph is
cyclic — every step resolves to a registered non-conditional action that
always succeeds and names an existing step as `onSuccess` — `execute()`
terminates after exactly `2 × totalSteps` step attempts, and the returned
Execution has status COMPLETED: the safety bound silently exits the loop
into the normal completion path rather than failing the run. -/
theorem claim_C1 {oracle : Oracle} {now : String} {execution : Execution}
    {steps : List Dict} {inputData : Option Dict}
    (hne : steps ≠ [])
    (hgood : ∀ s ∈ steps, goodStep (stepIdStrs steps) oracle s) :
    (execute oracle now execution steps inputData).status = statusCompleted ∧
    (execute oracle now execution steps inputData).step_results.map
      List.length = some (2 * steps.length) := by
  have hid : ∀ s ∈ steps, (dictGet s "id").isSome = true := by
    intro s hs
    rcases (hgood s hs).1 with ⟨i, hi, -, -⟩
    rw [hi]
    rfl
  rcases buildLookup_ok hid [] with ⟨L, hL⟩
  obtain ⟨s0, rest, rfl⟩ : ∃ s0 rest, steps = s0 :: rest := by
    cases steps with
    | nil => exact absurd rfl hne
    | cons s0 rest => exact ⟨s0, rest, rfl⟩
  rcases (hgood s0 (List.mem_cons_self _ _)).1 with ⟨i0, hi0, hi0mem, hi0ne⟩
  have hhead : headStepId (s0 :: rest) = .ok (.vStr i0) := by
    unfold headStepId pyGetItem
    dsimp only
    rw [hi0]
  have hmem : ∀ (k : Value) (s : Dict), lookupV L k = some s →
      s ∈ s0 :: rest := by
    intro k s h
    rcases buildLookup_mem hL h with hm | hm
    · exact hm
    · simp [lookupV] at hm
  have hsome : ∀ t, t ∈ stepIdStrs (s0 :: rest) →
      (lookupV L (.vStr t)).isSome = true := by
    intro t ht
    exact buildLookup_isSome hL (Or.inl ht)
  rcases @loop_allgood oracle now
      ({ execution with
        status := statusRunning
        started_at := some now
        total_steps := (((s0 :: rest).length : Nat) : Int) } : Execution).playbook_id
      L (s0 :: rest)
      hmem hsome hgood (2 * (s0 :: rest).length) i0 (inputData.getD []) []
      { execution with
        status := statusRunning
        started_at := some now
        total_steps := (((s0 :: rest).length : Nat) : Int) } 0 hi0mem hi0ne
      (by omega) with ⟨ctx2, ex2, res2, hloop, hlen⟩
  have hrt : runTry oracle now
      { execution with
        status := statusRunning
        started_at := some now
        total_steps := (((s0 :: rest).length : Nat) : Int) } (s0 :: rest)
      (inputData.getD []) =
      (ctx2, res2, ex2, 2 * (s0 :: rest).length, none) := by
    unfold runTry
    rw [hL, hhead]
    exact hloop
  rw [execute_of_runTry_completed hrt]
  refine ⟨rfl, ?_⟩
  simp only [Option.map_some']
  rw [hlen]
  simp

/-- Claim C1 witness: the concrete two-step cycle `a ↔ b` with an
always-succeeding action completes with `2 × 2 = 4` recorded attempts. -/
theorem claim_C1_witness :
    (execute alwaysOk "t0" pendingExec [stepA, stepB] none).status
      = statusCompleted ∧
    (execute alwaysOk "t0" pendingExec [stepA, stepB] none).step_results.map
      List.length = some (2 * 2) := by
  have hgood : ∀ s ∈ [stepA, stepB],
      goodStep (stepIdStrs [stepA, stepB]) alwaysOk s := by
    intro s hs
    rcases List.mem_cons.mp hs with h | h
    · subst h
      refine ⟨⟨"a", rfl, by decide, by decide⟩,
        ⟨"wait", rfl, by decide, by decide,
          fun c => ⟨[("success", .vBool true)], rfl, rfl⟩⟩,
        ⟨"b", rfl, by decide, by decide⟩⟩
    · rcases List.mem_cons.mp h with h2 | h2
      · subst h2
        refine ⟨⟨"b", rfl, by decide, by decide⟩,
          ⟨"wait", rfl, by decide, by decide,
            fun c => ⟨[("success", .vBool true)], rfl, rfl⟩⟩,
          ⟨"a", rfl, by decide, by decide⟩⟩
      · simp at h2
  exact claim_C1 (List.cons_ne_nil _ _) hgood


/-- Claim C3 (amended): no exception propagates out of `execute()` — every
run returns an Execution in a terminal status (COMPLETED or FAILED).  When
the step whose action raised has `continueOnError` unset and no
`onFailure` edge, the loop aborts with a playbook-level error carrying the
raising step's id, having recorded its failed result and set
`currentStep` to its 0-based index; any such playbook error finalizes the
run as FAILED with `errorStep` = the recorded index and `stepResults`
accumulated up to and including the failure point.  (A raising step WITH
`continueOnError` or an `onFailure` edge does not force FAILED — see the
counterexample.) -/
theorem claim_C3 (oracle : Oracle) (now : String) (execution : Execution)
    (steps : List Dict) (inputData : Option Dict) :
    ((execute oracle now execution steps inputData).status = statusCompleted ∨
     (execute oracle now execution steps inputData).status = statusFailed) ∧
    (∀ (pbId : String) (lookup : VDict) (nsteps fuel : Nat) (csid : Value)
       (ctx : Dict) (res : List Dict) (ex : Execution) (idx : Nat)
       (step : Dict) (sid : Value) (a m : String),
       pyTruthy csid = true → idx < 2 * nsteps →
       lookupV lookup csid = some step →
       dictGet step "id" = some sid →
       dictGet step "action" = some (.vStr a) →
       actionRegistryNames.contains a = true →
       oracle a (dictGetD step "parameters" (.vDict [])) ctx = .raised m →
       pyTruthy (dictGetD step "continue_on_error" .vNone) = false →
       pyTruthy (dictGetD step "on_failure" .vNone) = false →
       loop oracle now pbId lookup nsteps (fuel + 1) csid ctx res ex idx =
         (dictSet ctx ("step_" ++ pyStr sid ++ "_result")
            (.vDict [("success", .vBool false), ("error", .vStr m),
                     ("step_id", sid),
                     ("step_name", dictGetD step "name" sid),
                     ("action", .vStr a)]),
          res ++ [[("success", .vBool false), ("error", .vStr m),
                   ("step_id", sid), ("step_name", dictGetD step "name" sid),
                   ("action", .vStr a)]],
          { ex with current_step := (idx : Int) }, idx + 1,
          some (.playbookError pbId ("Step failed: " ++ m) (some sid)))) ∧
    (∀ (ctx : Dict) (res : List Dict) (ex : Execution) (idx : Nat)
       (pb m : String) (st : Option Value),
       runTry oracle now
         { execution with
           status := statusRunning
           started_at := some now
           total_steps := (steps.length : Int) } steps (inputData.getD []) =
         (ctx, res, ex, idx, some (.playbookError pb m st)) →
       execute oracle now execution steps inputData =
         { ex with
           status := statusFailed
           error_message := some m
           error_step := some ex.current_step
           completed_at := some now
           step_results := some res }) := by
  refine ⟨?_, ?_, ?_⟩
  · rcases execute_terminal_cases oracle now execution steps inputData with
      h | h
    · exact Or.inl h
    · exact Or.inr h.1
  · intro pbId lookup nsteps fuel csid ctx res ex idx step sid a m hcs hidx
      hlk hid ha hreg ho hcoe hof
    have hexec := @executeStep_raised oracle now ctx step sid a m
      hid ha hreg ho
    exact loop_step_failNoEscape hcs hidx hlk hid hexec rfl hcoe hof
  · intro ctx res ex idx pb m st hrt
    exact execute_of_runTry_playbookError hrt

/-- Claim C3 witness: a one-step playbook whose action raises, with no
escape edge, returns FAILED with `errorStep = 0`, the raise converted to
`errorMessage`, and the raising step's failed result recorded; the
abort-with-playbook-error loop behaviour at the same concrete state. -/
theorem claim_C3_witness :
    (loop alwaysRaise "t0" "pb-1" [(.vStr "s1", stepRaise)] 1 (1 + 1)
      (.vStr "s1") [] [] runningExec1 0 =
      (dictSet [] ("step_" ++ pyStr (.vStr "s1") ++ "_result")
         (.vDict [("success", .vBool false), ("error", .vStr "boom"),
                  ("step_id", .vStr "s1"),
                  ("step_name", dictGetD stepRaise "name" (.vStr "s1")),
                  ("action", .vStr "wait")]),
       [] ++ [[("success", .vBool false), ("error", .vStr "boom"),
               ("step_id", .vStr "s1"),
               ("step_name", dictGetD stepRaise "name" (.vStr "s1")),
               ("action", .vStr "wait")]],
       { runningExec1 with current_step := ((0 : Nat) : Int) }, 0 + 1,
       some (.playbookError "pb-1" ("Step failed: " ++ "boom")
         (some (.vStr "s1"))))) ∧
    (execute alwaysRaise "t0" pendingExec [stepRaise] none).status
      = statusFailed ∧
    (execute alwaysRaise "t0" pendingExec [stepRaise] none).error_message
      = some "Step failed: boom" ∧
    (execute alwaysRaise "t0" pendingExec [stepRaise] none).error_step
      = some 0 ∧
    (execute alwaysRaise "t0" pendingExec [stepRaise] none).step_results.map
      (List.map (fun r => dictGetD r "success" .vNone)) =
      some [.vBool false] := by
  have h := claim_C3 alwaysRaise "t0" pendingExec [stepRaise] none
  have hb := h.2.1 "pb-1" [(.vStr "s1", stepRaise)] 1 1 (.vStr "s1") [] []
    runningExec1 0 stepRaise (.vStr "s1") "wait" "boom" rfl (by omega) rfl
    rfl rfl rfl rfl rfl rfl
  have hc := h.2.2 _ _ _ _ _ _ _ rfl
  rw [hc]
  exact ⟨hb, rfl, rfl, rfl, rfl⟩

/-- Claim C7: a step with `continueOnError` set whose execution fails still
advances to its `onSuccess` target (first conjunct, for every loop state);
and such a run can reach COMPLETED while the failed step's entry appears in
`stepResults` with `success = false` (second conjunct, at a concrete
one-step playbook whose action raises). -/
theorem claim_C7 :
    (∀ (oracle : Oracle) (now pbId : String) (lookup : VDict)
       (nsteps fuel : Nat) (csid : Value) (ctx : Dict) (res : List Dict)
       (ex : Execution) (idx : Nat) (step : Dict) (sid : Value) (r : Dict),
       pyTruthy csid = true → idx < 2 * nsteps →
       lookupV lookup csid = some step →
       dictGet step "id" = some sid →
       executeStep oracle now ctx step = .ok r →
       pyTruthy (dictGetD r "success" .vNone) = false →
       pyTruthy (dictGetD step "continue_on_error" .vNone) = true →
       loop oracle now pbId lookup nsteps (fuel + 1) csid ctx res ex idx =
         loop oracle now pbId lookup nsteps fuel
           (dictGetD step "on_success" .vNone)
           (dictSet ctx ("step_" ++ pyStr sid ++ "_result") (.vDict r))
           (res ++ [r]) { ex with current_step := (idx : Int) } (idx + 1)) ∧
    ((execute alwaysRaise "t0" pendingExec [stepCOE] none).status
       = statusCompleted ∧
     (execute alwaysRaise "t0" pendingExec [stepCOE] none).step_results.map
       (List.map (fun r => dictGetD r "success" .vNone)) =
       some [.vBool false]) := by
  constructor
  · intro oracle now pbId lookup nsteps fuel csid ctx res ex idx step sid r
      hcs hidx hlk hid hex hsucc hcoe
    exact loop_step_continueOnError hcs hidx hlk hid hex hsucc hcoe
  · exact ⟨rfl, rfl⟩

/-- Claim C7 witness: the advance-to-`onSuccess` behaviour at the concrete
failing `continue_on_error` step. -/
theorem claim_C7_witness :
    loop alwaysRaise "t0" "pb-1" [(.vStr "s1", stepCOE)] 1 (1 + 1)
      (.vStr "s1") [] [] runningExec1 0 =
    loop alwaysRaise "t0" "pb-1" [(.vStr "s1", stepCOE)] 1 1
      (dictGetD stepCOE "on_success" .vNone)
      (dictSet [] ("step_" ++ pyStr (.vStr "s1") ++ "_result")
        (.vDict [("success", .vBool false), ("error", .vStr "boom"),
                 ("step_id", .vStr "s1"),
                 ("step_name", dictGetD stepCOE "name" (.vStr "s1")),
                 ("action", .vStr "wait")]))
      ([] ++ [[("success", .vBool false), ("error", .vStr "boom"),
               ("step_id", .vStr "s1"),
               ("step_name", dictGetD stepCOE "name" (.vStr "s1")),
               ("action", .vStr "wait")]])
      { runningExec1 with current_step := ((0 : Nat) : Int) } (0 + 1) := by
  exact claim_C7.1 alwaysRaise "t0" "pb-1" [(.vStr "s1", stepCOE)] 1 1
    (.vStr "s1") [] [] runningExec1 0 stepCOE (.vStr "s1") _ rfl (by omega)
    rfl rfl rfl rfl rfl


/-- Claim C9: after every successful step, the step-metadata keys the step
runner injected — `step_id`, `step_name`, `action`, `executed_at` — are
merged into the shared execution context as top-level keys (overwriting
any prior entries of those names, whatever the caller seeded), and the
merged context is the one threaded to the rest of the run. -/
theorem claim_C9 {oracle : Oracle} {now pbId : String} {lookup : VDict}
    {nsteps fuel : Nat} {csid : Value} {ctx : Dict} {res : List Dict}
    {ex : Execution} {idx : Nat} {step : Dict} {sid : Value} {a : String}
    {r : Dict}
    (hcs : pyTruthy csid = true) (hidx : idx < 2 * nsteps)
    (hlk : lookupV lookup csid = some step)
    (hid : dictGet step "id" = some sid)
    (ha : dictGet step "action" = some (.vStr a))
    (hreg : actionRegistryNames.contains a = true)
    (ho : oracle a (dictGetD step "parameters" (.vDict [])) ctx = .ok r)
    (hsucc : pyTruthy (dictGetD r "success" .vNone) = true) :
    ∃ nxt ctx2,
      loop oracle now pbId lookup nsteps (fuel + 1) csid ctx res ex idx =
        loop oracle now pbId lookup nsteps fuel nxt ctx2
          (res ++ [tagResult now sid (dictGetD step "name" sid) a r])
          { ex with current_step := (idx : Int) } (idx + 1) ∧
      dictGet ctx2 "step_id" = some sid ∧
      dictGet ctx2 "step_name" = some (dictGetD step "name" sid) ∧
      dictGet ctx2 "action" = some (.vStr a) ∧
      dictGet ctx2 "executed_at" = some (.vStr now) := by
  have hall := tagResult_key_all now sid (dictGetD step "name" sid) a r
  have hkmem := tagResult_key_mem now sid (dictGetD step "name" sid) a r
  have h1 : dictGet (mergeResult
      (dictSet ctx ("step_" ++ pyStr sid ++ "_result")
        (.vDict (tagResult now sid (dictGetD step "name" sid) a r)))
      (tagResult now sid (dictGetD step "name" sid) a r)) "step_id"
      = some sid := by
    rw [mergeResult_get _ hall.1 (by decide) (by decide)]
    rcases hkmem.1 with ⟨p, hp, hpk⟩
    rw [if_pos (List.any_eq_true.mpr ⟨p, hp, by simpa using hpk⟩)]
  have h2 : dictGet (mergeResult
      (dictSet ctx ("step_" ++ pyStr sid ++ "_result")
        (.vDict (tagResult now sid (dictGetD step "name" sid) a r)))
      (tagResult now sid (dictGetD step "name" sid) a r)) "step_name"
      = some (dictGetD step "name" sid) := by
    rw [mergeResult_get _ hall.2.1 (by decide) (by decide)]
    rcases hkmem.2.1 with ⟨p, hp, hpk⟩
    rw [if_pos (List.any_eq_true.mpr ⟨p, hp, by simpa using hpk⟩)]
  have h3 : dictGet (mergeResult
      (dictSet ctx ("step_" ++ pyStr sid ++ "_result")
        (.vDict (tagResult now sid (dictGetD step "name" sid) a r)))
      (tagResult now sid (dictGetD step "name" sid) a r)) "action"
      = some (.vStr a) := by
    rw [mergeResult_get _ hall.2.2.1 (by decide) (by decide)]
    rcases hkmem.2.2.1 with ⟨p, hp, hpk⟩
    rw [if_pos (List.any_eq_true.mpr ⟨p, hp, by simpa using hpk⟩)]
  have h4 : dictGet (mergeResult
      (dictSet ctx ("step_" ++ pyStr sid ++ "_result")
        (.vDict (tagResult now sid (dictGetD step "name" sid) a r)))
      (tagResult now sid (dictGetD step "name" sid) a r)) "executed_at"
      = some (.vStr now) := by
    rw [mergeResult_get _ hall.2.2.2 (by decide) (by decide)]
    rcases hkmem.2.2.2 with ⟨p, hp, hpk⟩
    rw [if_pos (List.any_eq_true.mpr ⟨p, hp, by simpa using hpk⟩)]
  have hexec := @executeStep_ok_known oracle now ctx step sid a r
    hid ha hreg ho
  have hsucc2 : pyTruthy (dictGetD
      (tagResult now sid (dictGetD step "name" sid) a r)
      "success" .vNone) = true := by
    rw [tagResult_success]
    exact hsucc
  have hgi : pyGetItem step "id" = .ok sid := by
    unfold pyGetItem
    rw [hid]
  simp only [loop]
  rw [if_pos ⟨hcs, hidx⟩]
  simp only [hlk, hexec, hgi, hsucc2, if_true]
  by_cases hcnd : pyEq (dictGetD step "action" .vNone)
      (.vStr "conditional") = true
  · simp only [hcnd, if_true]
    by_cases hcm : pyTruthy (dictGetD
        (tagResult now sid (dictGetD step "name" sid) a r)
        "condition_met" .vNone) = true
    · simp only [hcm, if_true]
      exact ⟨_, _, rfl, h1, h2, h3, h4⟩
    · have hcm2 : pyTruthy (dictGetD
          (tagResult now sid (dictGetD step "name" sid) a r)
          "condition_met" .vNone) = false := by
        simpa using hcm
      simp only [hcm2, Bool.false_eq_true, if_false]
      exact ⟨_, _, rfl, h1, h2, h3, h4⟩
  · have hcnd2 : pyEq (dictGetD step "action" .vNone)
        (.vStr "conditional") = false := by
      simpa using hcnd
    simp only [hcnd2, Bool.false_eq_true, if_false]
    exact ⟨_, _, rfl, h1, h2, h3, h4⟩

/-- Claim C9 witness: the metadata merge at a concrete successful step,
with a caller-seeded `action` entry overwritten. -/
theorem claim_C9_witness :
    ∃ nxt ctx2,
      loop alwaysOk "tNOW" "pb-1" [(.vStr "s1", stepRaise)] 1 (1 + 1)
          (.vStr "s1") [("action", .vStr "caller-seeded")] [] runningExec1 0 =
        loop alwaysOk "tNOW" "pb-1" [(.vStr "s1", stepRaise)] 1 1 nxt ctx2
          ([] ++ [tagResult "tNOW" (.vStr "s1")
            (dictGetD stepRaise "name" (.vStr "s1")) "wait"
            [("success", .vBool true)]])
          { runningExec1 with current_step := ((0 : Nat) : Int) } (0 + 1) ∧
      dictGet ctx2 "step_id" = some (.vStr "s1") ∧
      dictGet ctx2 "step_name" = some (dictGetD stepRaise "name" (.vStr "s1")) ∧
      dictGet ctx2 "action" = some (.vStr "wait") ∧
      dictGet ctx2 "executed_at" = some (.vStr "tNOW") := by
  exact @claim_C9 alwaysOk "tNOW" "pb-1" [(.vStr "s1", stepRaise)] 1 1
    (.vStr "s1") [("action", .vStr "caller-seeded")] [] runningExec1 0
    stepRaise (.vStr "s1") "wait" [("success", .vBool true)]
    rfl (by omega) rfl rfl rfl rfl rfl rfl

end PySoar
